import Mathlib

/-!
Verification development for the LLM-API-Key-Proxy credential-rotation proxy.

The Lean definitions below are shallow embeddings of the Python sources:

* `Codex`   — `src/rotator_library/providers/openai_codex_provider.py`
  (the `CodexSSETranslator` and chunk reassembly),
* `ProxyApp` — `src/proxy_app/streaming.py`
  (`streaming_response_wrapper` and `_aggregate_streaming_chunks`),
* `Auth`    — `src/rotator_library/providers/openai_codex_auth_base.py`
  (credential cache/disk handling, refresh, queues, availability),
* `Usage`   — `src/rotator_library/usage/persistence/storage.py`
  (credential-state serialisation and parsing),
* `Creds`   — `src/rotator_library/credential_manager.py`
  (environment-variable OAuth credential discovery).

Modelling conventions:

* JSON/Python values are modelled by the inductive `JVal`; JSON numbers are
  modelled as integers (no claim below depends on fractional values), and
  clock readings are integers (seconds, or milliseconds where the source
  uses epoch-milliseconds).
* Python `dict`s are association lists in insertion order; assignment
  updates an existing key in place or appends a new one, matching CPython's
  ordered-dict semantics. `dict.get` is `List.lookup`.
* Python exceptions other than the typed `CodexStreamError` are modelled by
  `Option`/`Except` (`none` / `.error` = the call raises).
* `str.lower`/`str.strip` are modelled on ASCII data; `int(x)` applied to a
  non-numeric string (which raises in Python) is modelled as `none`.
* Network and filesystem effects are modelled by explicit parameters: the
  HTTP outcome of a token-refresh POST and the success of a disk write are
  inputs to the transition functions.
-/

namespace PyStr

/-- Python `str.lower()` (ASCII case folding). -/
def lowerStr (s : String) : String := String.mk (s.data.map Char.toLower)

/-- Python `str.strip()`: drop leading and trailing whitespace. -/
def stripStr (s : String) : String :=
  String.mk (((s.data.dropWhile Char.isWhitespace).reverse.dropWhile Char.isWhitespace).reverse)

/-- Python `sub in s` substring containment. -/
def strContains (s sub : String) : Bool := decide (sub.data <:+: s.data)

/-- Python `int(s)` on a string of decimal digits. -/
def digitsVal (cs : List Char) : Nat := cs.foldl (fun acc c => acc * 10 + (c.toNat - 48)) 0

end PyStr

namespace Codex

open PyStr

/-- JSON-ish Python value (dicts as insertion-ordered association lists). -/
inductive JVal where
  | null
  | bool (b : Bool)
  | num (n : Int)
  | str (s : String)
  | arr (elems : List JVal)
  | obj (fields : List (String × JVal))
deriving Repr, Inhabited

/-- A Python dict with string keys (e.g. a parsed SSE event). -/
abbrev JObj := List (String × JVal)

mutual

/-- Structural equality of `JVal` (Python `==` on JSON data). -/
def jeq : JVal → JVal → Bool
  | .null, .null => true
  | .bool a, .bool b => a == b
  | .num a, .num b => a == b
  | .str a, .str b => a == b
  | .arr a, .arr b => jeqSeq a b
  | .obj a, .obj b => jeqFields a b
  | _, _ => false
termination_by structural v => v

def jeqSeq : List JVal → List JVal → Bool
  | [], [] => true
  | a :: as, b :: bs => jeq a b && jeqSeq as bs
  | _, _ => false
termination_by structural v => v

def jeqFields : List (String × JVal) → List (String × JVal) → Bool
  | [], [] => true
  | (k, v) :: as, (k2, v2) :: bs => k == k2 && jeq v v2 && jeqFields as bs
  | _, _ => false
termination_by structural v => v

end

/-- Python truthiness of a JSON value. -/
def pyTruthy : JVal → Bool
  | .null => false
  | .bool b => b
  | .num n => n != 0
  | .str s => s != ""
  | .arr xs => !xs.isEmpty
  | .obj kvs => !kvs.isEmpty

/-- A single quote character, for Python `repr` of strings. -/
def sq : String := String.singleton (Char.ofNat 39)

mutual

/-- Python `repr` of a JSON value (containers print their items' reprs). -/
def pyRepr : JVal → String
  | .null => "None"
  | .bool b => if b then "True" else "False"
  | .num n => toString n
  | .str s => sq ++ s ++ sq
  | .arr xs => "[" ++ pyReprSeq xs ++ "]"
  | .obj kvs => "\x7b" ++ pyReprFields kvs ++ "\x7d"
termination_by structural v => v

def pyReprSeq : List JVal → String
  | [] => ""
  | [x] => pyRepr x
  | x :: y :: xs => pyRepr x ++ ", " ++ pyReprSeq (y :: xs)
termination_by structural v => v

def pyReprFields : List (String × JVal) → String
  | [] => ""
  | [(k, v)] => sq ++ k ++ sq ++ ": " ++ pyRepr v
  | (k, v) :: kv :: kvs => sq ++ k ++ sq ++ ": " ++ pyRepr v ++ ", " ++ pyReprFields (kv :: kvs)
termination_by structural v => v

end

/-- Python `str()` of a JSON value: identity on strings, `repr` elsewhere. -/
def pyStr : JVal → String
  | .str s => s
  | v => pyRepr v

/-- Quote a string as a JSON string literal (escaping is not modelled; the
inputs relevant to the claims contain no characters needing escapes). -/
def jquote (s : String) : String := "\"" ++ s ++ "\""

mutual

/-- Python `json.dumps` with its default separators. -/
def json_dumps : JVal → String
  | .null => "null"
  | .bool b => if b then "true" else "false"
  | .num n => toString n
  | .str s => jquote s
  | .arr xs => "[" ++ jsonDumpsSeq xs ++ "]"
  | .obj kvs => "\x7b" ++ jsonDumpsFields kvs ++ "\x7d"
termination_by structural v => v

def jsonDumpsSeq : List JVal → String
  | [] => ""
  | [x] => json_dumps x
  | x :: y :: xs => json_dumps x ++ ", " ++ jsonDumpsSeq (y :: xs)
termination_by structural v => v

def jsonDumpsFields : List (String × JVal) → String
  | [] => ""
  | [(k, v)] => jquote k ++ ": " ++ json_dumps v
  | (k, v) :: kv :: kvs => jquote k ++ ": " ++ json_dumps v ++ ", " ++ jsonDumpsFields (kv :: kvs)
termination_by structural v => v

end

/-- Python dict assignment `d[k] = v` on a string-keyed dict: update the
existing key in place, else append. -/
def pyDictSet (d : List (String × JVal)) (k : String) (v : JVal) : List (String × JVal) :=
  if d.any (fun kv => kv.1 = k) then d.map (fun kv => if kv.1 = k then (k, v) else kv)
  else d ++ [(k, v)]

/-- Dict assignment for a string-valued dict (the translator's name map). -/
def pyDictSetStr (d : List (String × String)) (k v : String) : List (String × String) :=
  if d.any (fun kv => kv.1 = k) then d.map (fun kv => if kv.1 = k then (k, v) else kv)
  else d ++ [(k, v)]

/-- `isinstance(v, str) and v` → the non-empty string, else `None`. -/
def nonEmptyStr? : Option JVal → Option String
  | some (.str s) => if s ≠ "" then some s else none
  | _ => none

/-- The usage block of a translated chunk
(`prompt_tokens` / `completion_tokens` / `total_tokens`). -/
structure Usage where
  prompt_tokens : Int
  completion_tokens : Int
  total_tokens : Int
deriving Repr, DecidableEq

/-- The singleton `delta.tool_calls[0]` entry of a translated chunk. -/
structure ToolCallDelta where
  index : Nat
  id : String
  name : String
  arguments : String
deriving Repr, DecidableEq

/-- The `delta` of a translated chunk: `{}`, `{"content": text}` or
`{"tool_calls": [tc]}` (with `tc.type = "function"` always). -/
inductive Delta where
  | empty
  | content (text : String)
  | toolCalls (tc : ToolCallDelta)
deriving Repr, DecidableEq

/-- A translated OpenAI `chat.completion.chunk` (the constant fields
`object = "chat.completion.chunk"` and `choices[0].index = 0` are left
implicit). -/
structure Chunk where
  id : String
  created : Int
  model : String
  delta : Delta
  finish_reason : Option String
  usage : Option Usage
deriving Repr, DecidableEq

/-- The typed `CodexStreamError` raised for terminal stream errors. -/
structure CodexStreamError where
  message : String
  status_code : Int
  error_body : String
deriving Repr, DecidableEq

/-- `CodexStreamError.__init__`: `error_body = error_body or message`. -/
def mkCodexStreamError (message : String) (status_code : Int) (error_body : Option String) :
    CodexStreamError :=
  { message := message
    status_code := status_code
    error_body := match error_body with
      | some b => if b ≠ "" then b else message
      | none => message }

/-- Mutable state of one `CodexSSETranslator` instance. The `fallbackId`
field abstracts the clock-derived `f"chatcmpl-codex-{ms}"` identifier that
`_build_chunk` installs when no response id has been captured yet. -/
structure TranslatorState where
  model_id : String
  response_id : Option String
  created : Int
  tool_index_by_call_id : List (String × Nat)
  tool_names_by_call_id : List (String × String)
  fallbackId : String
deriving Repr, DecidableEq

/-- `CodexSSETranslator.__init__` (with `created` and the fallback id
abstracting the two clock readings). -/
def initTranslator (model_id : String) (created : Int) (fallbackId : String) : TranslatorState :=
  { model_id := model_id
    response_id := none
    created := created
    tool_index_by_call_id := []
    tool_names_by_call_id := []
    fallbackId := fallbackId }

/-- `CodexSSETranslator._build_chunk`. -/
def build_chunk (st : TranslatorState) (delta : Delta) (finish_reason : Option String)
    (usage : Option Usage) : TranslatorState × Chunk :=
  let st := if (st.response_id.getD "") = "" then { st with response_id := some st.fallbackId }
            else st
  (st,
   { id := st.response_id.getD ""
     created := st.created
     model := st.model_id
     delta := delta
     finish_reason := finish_reason
     usage := usage })

/-- `CodexSSETranslator._extract_text_delta`. -/
def extract_text_delta (event : JObj) : Option String :=
  match List.lookup "type" event with
  | some (.str event_type) =>
    if event_type = "response.output_text.delta" then
      match List.lookup "delta" event with
      | some (.str s) => some s
      | _ => none
    else if event_type = "response.content_part.delta" then
      match List.lookup "delta" event with
      | some (.str s) => some s
      | _ =>
        match List.lookup "part" event with
        | some (.obj part) =>
          (match List.lookup "delta" part with
           | some (.str s) => some s
           | _ =>
             match List.lookup "text" part with
             | some (.str s) => some s
             | _ => none)
        | _ => none
    else if event_type = "response.content_part.added" then
      match List.lookup "part" event with
      | some (.obj part) =>
        (match List.lookup "text" part with
         | some (.str s) => if s ≠ "" then some s else none
         | _ => none)
      | _ => none
    else none
  | _ => none

/-- `CodexSSETranslator._map_incomplete_reason`. -/
def map_incomplete_reason (reason : Option String) : String :=
  match reason with
  | none => "length"
  | some r =>
    if r = "" then "length"
    else
      let normalized := lowerStr (stripStr r)
      if normalized = "stop" ∨ normalized = "completed" then "stop"
      else if normalized = "max_output_tokens" ∨ normalized = "max_tokens" ∨
              normalized = "length" then "length"
      else if normalized = "tool_calls" ∨ normalized = "tool_call" then "tool_calls"
      else if normalized = "content_filter" ∨ normalized = "content_filtered" then
        "content_filter"
      else "length"

/-- Python `int(x or 0)` on an optional JSON value; `none` (outer) models the
`ValueError`/`TypeError` that `int()` raises on non-numeric data (numeric
strings, which Python would coerce, are not modelled). -/
def intOr0? : Option JVal → Option Int
  | none => some 0
  | some .null => some 0
  | some (.num n) => some n
  | some (.bool b) => some (if b then 1 else 0)
  | some (.str s) => if s = "" then some 0 else none
  | some (.arr xs) => if xs.isEmpty then some 0 else none
  | some (.obj kvs) => if kvs.isEmpty then some 0 else none

/-- `CodexSSETranslator._extract_usage`; the outer `none` models a raised
`int()` conversion error, the inner `none` is Python `None`. -/
def extract_usage (event : JObj) : Option (Option Usage) :=
  match List.lookup "response" event with
  | some (.obj response) =>
    (match List.lookup "usage" response with
     | some (.obj usage) =>
       match intOr0? (List.lookup "input_tokens" usage),
             intOr0? (List.lookup "output_tokens" usage),
             intOr0? (List.lookup "total_tokens" usage) with
       | some p, some c, some t =>
         some (some { prompt_tokens := p, completion_tokens := c, total_tokens := t })
       | _, _, _ => none
     | _ => some none)
  | _ => some none

/-- `CodexSSETranslator._get_response_status`. -/
def get_response_status (event : JObj) : String :=
  let fb : String :=
    match List.lookup "type" event with
    | some (.str "response.incomplete") => "incomplete"
    | some (.str "response.failed") => "failed"
    | _ => "completed"
  match List.lookup "response" event with
  | some (.obj response) =>
    (match List.lookup "status" response with
     | some (.str s) => if s ≠ "" then s else fb
     | _ => fb)
  | _ => fb

/-- `CodexSSETranslator._get_or_create_tool_index`. -/
def get_or_create_tool_index (st : TranslatorState) (call_id : String) :
    TranslatorState × Nat :=
  match List.lookup call_id st.tool_index_by_call_id with
  | some i => (st, i)
  | none =>
    ({ st with tool_index_by_call_id :=
        st.tool_index_by_call_id ++ [(call_id, st.tool_index_by_call_id.length)] },
     st.tool_index_by_call_id.length)

/-- `CodexSSETranslator._extract_tool_call_id`. -/
def extract_tool_call_id (event : JObj) : Option String :=
  (nonEmptyStr? (List.lookup "call_id" event)).orElse fun _ =>
  (nonEmptyStr? (List.lookup "item_id" event)).orElse fun _ =>
  (nonEmptyStr? (List.lookup "id" event)).orElse fun _ =>
  match List.lookup "item" event with
  | some (.obj item) =>
    (nonEmptyStr? (List.lookup "call_id" item)).orElse fun _ =>
    nonEmptyStr? (List.lookup "id" item)
  | _ => none

/-- `CodexSSETranslator._extract_error_payload`. -/
def extract_error_payload (event : JObj) : JObj :=
  match List.lookup "error" event with
  | some (.obj payload) => payload
  | _ =>
    match List.lookup "response" event with
    | some (.obj response) =>
      (match List.lookup "error" response with
       | some (.obj nested) => nested
       | _ => [])
    | _ => []

/-- `str(payload.get(key, "") or "")` lowercased, as `_classify_error_status`
builds its search text. -/
def classifyField (payload : JObj) (key : String) : String :=
  let v := (List.lookup key payload).getD .null
  lowerStr (pyStr (if pyTruthy v then v else .str ""))

/-- `CodexSSETranslator._classify_error_status`. -/
def classify_error_status (payload : JObj) : Int :=
  let code := classifyField payload "code"
  let err_type := classifyField payload "type"
  let message := classifyField payload "message"
  let text := code ++ " " ++ err_type ++ " " ++ message
  if strContains text "rate_limit" || strContains text "usage_limit" ||
     strContains text "quota" then 429
  else if strContains text "auth" || strContains text "unauthorized" ||
          strContains text "invalid_api_key" then 401
  else if strContains text "forbidden" then 403
  else if strContains text "context" || strContains text "max_output_tokens" then 400
  else 500

/-- `item.get("type") == "function_call"` for an output-item event. -/
def isFunctionCallItem (item : JObj) : Bool :=
  match List.lookup "type" item with
  | some (.str t) => t = "function_call"
  | _ => false

/-- Result of `process_event`: translated chunks, or a raised
`CodexStreamError` (the state records mutations made before the raise). -/
inductive PEResult where
  | ok (st : TranslatorState) (chunks : List Chunk)
  | streamError (st : TranslatorState) (e : CodexStreamError)
deriving Repr, DecidableEq

/-- The `response.created_at` capture at the top of `process_event`. -/
def capture_created_at (st : TranslatorState) (response : JObj) : TranslatorState :=
  match List.lookup "created_at" response with
  | some (.num n) => { st with created := n }
  | _ => st

/-- The early `response.id` / `response.created_at` capture of
`process_event`. -/
def capture_response_meta (st : TranslatorState) (event : JObj) : TranslatorState :=
  match List.lookup "response" event with
  | some (.obj response) =>
    capture_created_at
      (match List.lookup "id" response with
       | some (.str i) => if i ≠ "" then { st with response_id := some i } else st
       | _ => st) response
  | _ => st

/-- The `response.output_item.added` function-call branch of
`process_event`: register the tool index and name, then emit the initial
tool-call delta chunk. -/
def added_tool_event (st : TranslatorState) (item : JObj) (call_id : String) :
    TranslatorState × Chunk :=
  let (st, index) := get_or_create_tool_index st call_id
  let name := match List.lookup "name" item with
              | some (.str n) => n
              | _ => ""
  let st := if name ≠ "" then
              { st with tool_names_by_call_id :=
                  pyDictSetStr st.tool_names_by_call_id call_id name }
            else st
  let initial_args := match List.lookup "arguments" item with
                      | some (.str a) => a
                      | _ => ""
  build_chunk st
    (.toolCalls { index := index, id := call_id, name := name,
                  arguments := initial_args }) none none

/-- The `response.function_call_arguments.delta` branch of `process_event`. -/
def args_delta_event (st : TranslatorState) (call_id delta : String) :
    TranslatorState × Chunk :=
  let (st, index) := get_or_create_tool_index st call_id
  let name := (List.lookup call_id st.tool_names_by_call_id).getD ""
  build_chunk st
    (.toolCalls { index := index, id := call_id, name := name, arguments := delta })
    none none

/-- The `response.function_call_arguments.done` branch of `process_event`. -/
def args_done_event (st : TranslatorState) (event : JObj) (call_id : String) :
    TranslatorState × Chunk :=
  let (st, index) := get_or_create_tool_index st call_id
  let name := (List.lookup call_id st.tool_names_by_call_id).getD ""
  let arguments := match List.lookup "arguments" event with
                   | some (.str a) => a
                   | _ => ""
  build_chunk st
    (.toolCalls { index := index, id := call_id, name := name, arguments := arguments })
    none none

/-- `CodexSSETranslator.process_event`; `none` models a Python exception
other than `CodexStreamError` (only possible through `int()` in
`_extract_usage`). -/
def process_event (st : TranslatorState) (event : JObj) : Option PEResult :=
  match List.lookup "type" event with
  | some (.str event_type) =>
    -- capture response id / created as early as possible
    let st := capture_response_meta st event
    if event_type = "response.output_item.added" then
      match List.lookup "item" event with
      | some (.obj item) =>
        if isFunctionCallItem item then
          match extract_tool_call_id item with
          | some call_id =>
            let (st, chunk) := added_tool_event st item call_id
            some (.ok st [chunk])
          | none => some (.ok st [])
        else some (.ok st [])
      | _ => some (.ok st [])
    else if event_type = "response.function_call_arguments.delta" then
      match extract_tool_call_id event, List.lookup "delta" event with
      | some call_id, some (.str delta) =>
        let (st, chunk) := args_delta_event st call_id delta
        some (.ok st [chunk])
      | _, _ => some (.ok st [])
    else if event_type = "response.function_call_arguments.done" then
      match extract_tool_call_id event with
      | some call_id =>
        let (st, chunk) := args_done_event st event call_id
        some (.ok st [chunk])
      | none => some (.ok st [])
    else
      match extract_text_delta event with
      | some text =>
        if text ≠ "" then
          let (st, chunk) := build_chunk st (.content text) none none
          some (.ok st [chunk])
        else
          processTerminal st event event_type
      | none => processTerminal st event event_type
  | _ => some (.ok st [])
where
  /-- The tail of `process_event`: the `error`/`response.failed` raise and the
  `response.completed`/`response.incomplete` terminal chunk. -/
  processTerminal (st : TranslatorState) (event : JObj) (event_type : String) :
      Option PEResult :=
    if event_type = "error" ∨ event_type = "response.failed" then
      let error_payload := extract_error_payload event
      let status_code := classify_error_status error_payload
      let message := match List.lookup "message" error_payload with
                     | some (.str m) => m
                     | _ => "Codex stream failed (" ++ event_type ++ ")"
      let body := json_dumps (if !error_payload.isEmpty then .obj [("error", .obj error_payload)]
                              else .obj event)
      some (.streamError st (mkCodexStreamError message status_code (some body)))
    else if event_type = "response.completed" ∨ event_type = "response.incomplete" then
      match extract_usage event with
      | none => none
      | some usage =>
        let status := get_response_status event
        let finish_reason :=
          if status = "incomplete" then
            let incomplete_details :=
              match List.lookup "response" event with
              | some (.obj r) => List.lookup "incomplete_details" r
              | _ => none
            let reason :=
              match incomplete_details with
              | some (.obj d) => List.lookup "reason" d
              | _ => none
            match reason with
            | some (.str r) => map_incomplete_reason (some r)
            | _ => "length"
          else "stop"
        let (st, chunk) := build_chunk st .empty (some finish_reason) usage
        some (.ok st [chunk])
    else some (.ok st [])

/-- How a translated stream ended: all events consumed, or aborted by a
raised `CodexStreamError`. -/
inductive StreamEnd where
  | done (st : TranslatorState)
  | errored (st : TranslatorState) (e : CodexStreamError)
deriving Repr, DecidableEq

/-- Final translator state of a finished stream. -/
def StreamEnd.state : StreamEnd → TranslatorState
  | .done st => st
  | .errored st _ => st

/-- State carried by a `process_event` result. -/
def PEResult.state : PEResult → TranslatorState
  | .ok st _ => st
  | .streamError st _ => st

/-- Chunks emitted by a `process_event` result (none when raising). -/
def PEResult.chunks : PEResult → List Chunk
  | .ok _ cs => cs
  | .streamError _ _ => []

/-- The first-appearance tool-index invariant of the translator state:
the recorded indices are `0, 1, 2, …` in insertion order and each
`call_id` appears at most once. -/
def toolIndexInv (st : TranslatorState) : Prop :=
  st.tool_index_by_call_id.map Prod.snd =
    List.range st.tool_index_by_call_id.length ∧
  (st.tool_index_by_call_id.map Prod.fst).Nodup

/-- Process a whole event sequence with one translator instance, collecting
the translated chunks and stopping at a raised `CodexStreamError` (the
stream handler aborts there); `none` models an unmodelled exception. -/
def process_events (st : TranslatorState) : List JObj → Option (StreamEnd × List Chunk)
  | [] => some (.done st, [])
  | e :: es =>
    match process_event st e with
    | some (.ok st' cs) =>
      match process_events st' es with
      | some (fin, cs') => some (fin, cs ++ cs')
      | none => none
    | some (.streamError st' err) => some (.errored st' err, [])
    | none => none

/-- One aggregated tool call of `_stream_to_completion_response`
(the dict `{"type": ..., "function": {"name": ..., "arguments": ...}, "id"?}`). -/
structure AggToolCall where
  id : Option String
  tcType : String
  name : String
  arguments : String
deriving Repr, DecidableEq

/-- Update one aggregation entry with a tool-call delta, as the body of the
`for tc_chunk in delta["tool_calls"]` loop does (in a translated chunk the
entry always carries `id`, `type = "function"` and a `function` dict with
string `name`/`arguments`). -/
def updateAggToolCall (e : AggToolCall) (tc : ToolCallDelta) : AggToolCall :=
  { e with
    id := if tc.id ≠ "" then some tc.id else e.id
    tcType := "function"
    name := e.name ++ tc.name
    arguments := e.arguments ++ tc.arguments }

/-- Insert-or-update step for `aggregated_tool_calls[index]`. -/
def aggToolCallStep (m : List (Nat × AggToolCall)) (tc : ToolCallDelta) :
    List (Nat × AggToolCall) :=
  let m :=
    if m.any (fun kv => kv.1 = tc.index) then m
    else m ++ [(tc.index, { id := none, tcType := "function", name := "", arguments := "" })]
  m.map (fun kv => if kv.1 = tc.index then (kv.1, updateAggToolCall kv.2 tc) else kv)

/-- Loop state of `_stream_to_completion_response`. -/
structure ReassemblyAcc where
  content : Option String
  agg : List (Nat × AggToolCall)
  chunk_finish_reason : Option String
deriving Repr, DecidableEq

/-- Body of the `for chunk in chunks` loop of `_stream_to_completion_response`. -/
def reassemblyStep (acc : ReassemblyAcc) (chunk : Chunk) : ReassemblyAcc :=
  let acc :=
    match chunk.delta with
    | .content text => { acc with content := some ((acc.content.getD "") ++ text) }
    | .toolCalls tc => { acc with agg := aggToolCallStep acc.agg tc }
    | .empty => acc
  match chunk.finish_reason with
  | some f => if f ≠ "" then { acc with chunk_finish_reason := some f } else acc
  | none => acc

/-- The reassembled non-streaming response (`object = "chat.completion"`,
`choices[0].index = 0`, `message.role = "assistant"` and the always-`None`
`message.function_call` are constants and left implicit). -/
structure FinalResponse where
  id : String
  created : Int
  model : String
  content : Option String
  tool_calls : Option (List AggToolCall)
  finish_reason : String
  usage : Option Usage
deriving Repr, DecidableEq

/-- `OpenAICodexProvider._stream_to_completion_response`; `none` models the
`ValueError` raised on an empty chunk list. -/
def stream_to_completion_response (chunks : List Chunk) : Option FinalResponse :=
  match chunks with
  | [] => none
  | first_chunk :: _ =>
    let acc := chunks.foldl reassemblyStep
      { content := none, agg := [], chunk_finish_reason := none }
    let usage_data := (chunks.reverse.find? (fun c => c.usage.isSome)).bind (fun c => c.usage)
    let finish_reason :=
      if !acc.agg.isEmpty then "tool_calls"
      else match acc.chunk_finish_reason with
        | some f => f
        | none => "stop"
    some
      { id := first_chunk.id
        created := first_chunk.created
        model := first_chunk.model
        content := acc.content
        tool_calls := if !acc.agg.isEmpty then some (acc.agg.map Prod.snd) else none
        finish_reason := finish_reason
        usage := usage_data }

end Codex

namespace ProxyApp

open Codex (JVal JObj json_dumps pyTruthy jeq pyDictSet)
open PyStr

/-- A provider chunk stream as consumed by `streaming_response_wrapper`:
the string chunks it yields, then optionally an exception (its `str(e)`
text) raised while producing the next item. -/
structure PyStream where
  items : List String
  err : Option String
deriving Repr, DecidableEq

/-- The synthetic error payload built in the `except` branch of
`streaming_response_wrapper`. -/
def stream_error_payload (msg : String) : JVal :=
  .obj [("error", .obj
    [("message", .str ("An unexpected error occurred during the stream: " ++ msg)),
     ("type", .str "proxy_internal_error"),
     ("code", .num 500)])]

/-- `streaming_response_wrapper` in passthrough mode (no raw-IO logger, the
client stays connected): the chunk strings sent to the client. -/
def streaming_response_wrapper (s : PyStream) : List String :=
  s.items ++
    match s.err with
    | some msg =>
      ["data: " ++ json_dumps (stream_error_payload msg) ++ "\n\n", "data: [DONE]\n\n"]
    | none => []

/-- Python `needle in container` for the three container kinds; `none`
models the `TypeError` raised on other values. -/
def pyIn (needle : String) : JVal → Option Bool
  | .obj kvs => some (kvs.any (fun kv => kv.1 = needle))
  | .arr xs => some (xs.any (fun v => jeq v (.str needle)))
  | .str s => some (strContains s needle)
  | _ => none

/-- One aggregated tool call of `_aggregate_streaming_chunks` (its `type`
key is the constant `"function"`). -/
structure AggEntry where
  id : Option JVal
  name : String
  arguments : String
deriving Repr

/-- `aggregated_tool_calls` keyed by the raw `tc_chunk["index"]` value. -/
abbrev AggMap := List (JVal × AggEntry)

/-- Loop state of `_aggregate_streaming_chunks`. -/
structure AggAcc where
  message : JObj
  agg : AggMap
  usage_data : Option JVal
  finish_reason : Option JVal
deriving Repr

/-- The `"name"` / `"arguments"` update shared by the `tool_calls` and
`function_call` branches: `if key in fn and fn[key] is not None: acc += str→
concatenation`, raising (`none`) when the value is not a string. -/
def concatField (fv : JObj) (key : String) (current : String) : Option String :=
  match List.lookup key fv with
  | none => some current
  | some .null => some current
  | some (.str s) => some (current ++ s)
  | some _ => none

/-- Rebuild one `aggregated_tool_calls` entry, applying the update to the
entries whose key equals the current `index`. -/
def aggEntryUpdate (index : JVal) (upd : AggEntry → Option AggEntry)
    (kv : JVal × AggEntry) (acc : Option AggMap) : Option AggMap := do
  let acc ← acc
  if jeq kv.1 index then
    let e ← upd kv.2
    pure ((kv.1, e) :: acc)
  else pure (kv :: acc)

/-- Process one element of `delta["tool_calls"]`. -/
def aggEntryStep (agg : AggMap) (tc : JVal) : Option AggMap :=
  match tc with
  | .obj tcf =>
    match List.lookup "index" tcf with
    | none => none
    | some index =>
      let agg :=
        if agg.any (fun kv => jeq kv.1 index) then agg
        else agg ++ [(index, { id := none, name := "", arguments := "" })]
      let idv := match List.lookup "id" tcf with
                 | some v => if pyTruthy v then some v else none
                 | none => none
      match List.lookup "function" tcf with
      | some (.obj fv) =>
        let upd := fun (e : AggEntry) => do
          let name ← concatField fv "name" e.name
          let arguments ← concatField fv "arguments" e.arguments
          pure { id := idv.orElse (fun _ => e.id), name := name, arguments := arguments }
        agg.foldr (aggEntryUpdate index upd) (some [])
      | some other =>
        -- `"name" in value` on a non-dict container; indexing it afterwards raises
        (match pyIn "name" other, pyIn "arguments" other with
         | some false, some false =>
           some (agg.map (fun kv =>
             if jeq kv.1 index then
               (kv.1, { kv.2 with id := idv.orElse (fun _ => kv.2.id) })
             else kv))
         | some false, some true => none
         | some true, _ => none
         | _, _ => none)
      | none =>
        some (agg.map (fun kv =>
          if jeq kv.1 index then (kv.1, { kv.2 with id := idv.orElse (fun _ => kv.2.id) })
          else kv))
  | _ => none

/-- Process one `(key, value)` item of `delta.items()`. -/
def applyDeltaItem (acc : AggAcc) (kv : String × JVal) : Option AggAcc :=
  let (key, value) := kv
  if jeq value .null then some acc
  else if key = "content" then
    let msg := if acc.message.any (fun p => p.1 = "content") then acc.message
               else pyDictSet acc.message "content" (.str "")
    if pyTruthy value then
      match List.lookup "content" msg, value with
      | some (.str current), .str s =>
        some { acc with message := pyDictSet msg "content" (.str (current ++ s)) }
      | _, _ => none
    else some { acc with message := msg }
  else if key = "tool_calls" then
    match value with
    | .arr tcs =>
      (tcs.foldl (fun agg tc => do aggEntryStep (← agg) tc) (some acc.agg)).map
        (fun agg => { acc with agg := agg })
    | _ => none
  else if key = "function_call" then
    let msg := if acc.message.any (fun p => p.1 = "function_call") then acc.message
               else pyDictSet acc.message "function_call"
                 (.obj [("name", .str ""), ("arguments", .str "")])
    match List.lookup "function_call" msg, value with
    | some (.obj fc), .obj fv => do
      let name ← concatField fv "name" (match List.lookup "name" fc with
        | some (.str s) => s | _ => "")
      let arguments ← concatField fv "arguments" (match List.lookup "arguments" fc with
        | some (.str s) => s | _ => "")
      let fc2 : JVal := .obj [("name", .str name), ("arguments", .str arguments)]
      pure { acc with message := pyDictSet msg "function_call" fc2 }
    | _, _ => none
  else
    if key = "role" then some { acc with message := pyDictSet acc.message key value }
    else if !(acc.message.any (fun p => p.1 = key)) then
      some { acc with message := pyDictSet acc.message key value }
    else
      match List.lookup key acc.message with
      | some (.str current) =>
        (match value with
         | .str s => some { acc with message := pyDictSet acc.message key (.str (current ++ s)) }
         | _ => none)
      | _ => some { acc with message := pyDictSet acc.message key value }

/-- The `"choices" in chunk` half of one chunk of
`_aggregate_streaming_chunks`: delta items and `finish_reason`. -/
def aggChoicesPart (acc : AggAcc) (chunk : JVal) : Option AggAcc :=
  match pyIn "choices" chunk with
  | none => none
  | some false => some acc
  | some true =>
    match chunk with
    | .obj fields =>
      match List.lookup "choices" fields with
      | some cv =>
        if pyTruthy cv then
          match cv with
          | .arr (choice :: _) =>
            match choice with
            | .obj cf =>
              match (List.lookup "delta" cf).getD (.obj []) with
              | .obj items => do
                let acc ← items.foldl (fun a it => do applyDeltaItem (← a) it) (some acc)
                match List.lookup "finish_reason" cf with
                | some fr => if pyTruthy fr then pure { acc with finish_reason := some fr }
                             else pure acc
                | none => pure acc
              | _ => none
            | _ => none
          | _ => none
        else some acc
      | none => some acc
    | _ => none

/-- The trailing `"usage" in chunk` update of one chunk. -/
def aggUsagePart (acc : AggAcc) (chunk : JVal) : Option AggAcc :=
  match pyIn "usage" chunk with
  | none => none
  | some false => pure acc
  | some true =>
    match chunk with
    | .obj fields =>
      match List.lookup "usage" fields with
      | some uv => if pyTruthy uv then pure { acc with usage_data := some uv } else pure acc
      | none => pure acc
    | _ => none

/-- Process one chunk of `_aggregate_streaming_chunks`. -/
def aggChunkStep (acc : AggAcc) (chunk : JVal) : Option AggAcc := do
  let acc ← aggChoicesPart acc chunk
  aggUsagePart acc chunk

/-- Render one aggregation entry back to the dict stored in
`final_message["tool_calls"]`. -/
def aggEntryToJVal (e : AggEntry) : JVal :=
  .obj ([("type", .str "function"),
         ("function", .obj [("name", .str e.name), ("arguments", .str e.arguments)])] ++
        (match e.id with | some v => [("id", v)] | none => []))

/-- The aggregated final response of `_aggregate_streaming_chunks`
(`object = "chat.completion"` and `choices[0].index = 0` left implicit). -/
structure AggregateResult where
  id : Option JVal
  created : Option JVal
  model : Option JVal
  message : JObj
  finish_reason : Option JVal
  usage : Option JVal
deriving Repr

/-- `_aggregate_streaming_chunks`; `none` models a raised exception (the
function is only invoked on a non-empty chunk list). -/
def aggregate_streaming_chunks (chunks : List JVal) : Option AggregateResult :=
  match chunks with
  | [] => none
  | first_chunk :: _ => do
    let acc ← chunks.foldl (fun a c => do aggChunkStep (← a) c)
      (some { message := [("role", .str "assistant")], agg := [],
              usage_data := none, finish_reason := none })
    let (msg, finish_reason) :=
      if !acc.agg.isEmpty then
        (pyDictSet acc.message "tool_calls" (.arr (acc.agg.map (fun kv => aggEntryToJVal kv.2))),
         some (JVal.str "tool_calls"))
      else (acc.message, acc.finish_reason)
    let msg := ["content", "tool_calls", "function_call"].foldl
      (fun m f => if m.any (fun p => p.1 = f) then m else pyDictSet m f .null) msg
    match first_chunk with
    | .obj ff =>
      pure
        { id := List.lookup "id" ff
          created := List.lookup "created" ff
          model := List.lookup "model" ff
          message := msg
          finish_reason := finish_reason
          usage := acc.usage_data }
    | _ => none

end ProxyApp

/-- Dict assignment `d[k] = v` for an arbitrary value type. -/
def assocSet {α : Type} (m : List (String × α)) (k : String) (v : α) : List (String × α) :=
  if m.any (fun kv => kv.1 = k) then m.map (fun kv => if kv.1 = k then (k, v) else kv)
  else m ++ [(k, v)]

/-- Dict deletion `d.pop(k, None)` / set `discard`. -/
def assocPop {α : Type} (m : List (String × α)) (k : String) : List (String × α) :=
  m.filter (fun kv => kv.1 ≠ k)

namespace Auth

open PyStr

def TOKEN_ENDPOINT : String := "https://auth.openai.com/oauth/token"

def REFRESH_EXPIRY_BUFFER_SECONDS : Int := 5 * 60

/-- `self._unavailable_ttl_seconds` from `OpenAICodexAuthBase.__init__`. -/
def unavailable_ttl_seconds : Int := 360

/-- An OAuth credential record as held in the cache / on disk / in the
environment. Only the fields consulted by the refresh and availability
logic are modelled; `_proxy_metadata` is reduced to its `loaded_from_env`
flag. `expiry_date` is epoch milliseconds. -/
structure Creds where
  access_token : String
  refresh_token : String
  id_token : Option String
  expiry_date : Int
  token_uri : String
  loaded_from_env : Bool
deriving Repr, DecidableEq

/-- `OpenAICodexAuthBase._ensure_proxy_metadata`, restricted to the modelled
fields: it fills a missing `token_uri`; the JWT-claim metadata population
(`email` / `account_id` / `last_check_timestamp`) does not touch the token
fields used by the claims and is omitted. -/
def ensure_proxy_metadata (c : Creds) : Creds :=
  { c with token_uri := if c.token_uri = "" then TOKEN_ENDPOINT else c.token_uri }

/-- `str.split(sep)` on a single separator character (Python semantics:
`"".split("/") = [""]`). -/
def splitOnChar (c : Char) : List Char → List (List Char)
  | [] => [[]]
  | ch :: rest =>
    match splitOnChar c rest with
    | h :: t => if ch = c then [] :: h :: t else (ch :: h) :: t
    | [] => [[ch]]

/-- `OpenAICodexAuthBase._parse_env_credential_path`. -/
def parse_env_credential_path (path : String) : Option String :=
  if decide ("env://".data <+: path.data) then
    let raw := String.mk (path.data.drop 6)
    let parts := (splitOnChar '/' raw.data).map String.mk
    match parts with
    | [] => none
    | provider :: rest =>
      if lowerStr (stripStr provider) = "openai_codex" then
        match rest with
        | second :: _ =>
          if stripStr second ≠ "" then some (stripStr second) else some "0"
        | [] => some "0"
      else none
  else none

/-- `OpenAICodexAuthBase._is_token_expired` (proactive 5-minute buffer);
the float comparison `expiry_date/1000 < now + buffer` is expressed over
epoch-milliseconds. -/
def is_token_expired (now : Int) (c : Creds) : Bool :=
  c.expiry_date < 1000 * (now + REFRESH_EXPIRY_BUFFER_SECONDS)

/-- `OpenAICodexAuthBase._is_token_truly_expired` (no buffer). -/
def is_token_truly_expired (now : Int) (c : Creds) : Bool :=
  c.expiry_date < 1000 * now

/-- The mutable credential/queue state of one `OpenAICodexAuthBase`
instance, together with the filesystem (`disk`) and the environment-backed
credentials (`envCreds`, keyed by credential index) it interacts with. -/
structure AuthState where
  cache : List (String × Creds)
  disk : List (String × Creds)
  envCreds : List (String × Creds)
  queued : List String
  unavailable : List (String × Int)
  reauthQueue : List String
  refreshQueue : List (String × Bool)
  next_refresh_after : List (String × Int)
  refresh_failures : List (String × Int)
deriving Repr, DecidableEq

/-- `OpenAICodexAuthBase._save_credentials`: env-backed credentials update
only the cache; file-backed credentials are written to disk first and the
cache is updated only when that write succeeded (`writeOk` injects the
`safe_write_json` outcome). -/
def save_credentials (st : AuthState) (writeOk : Bool) (path : String) (creds : Creds) :
    AuthState × Bool :=
  let creds := ensure_proxy_metadata creds
  if creds.loaded_from_env || (parse_env_credential_path path).isSome then
    ({ st with cache := assocSet st.cache path creds }, true)
  else if writeOk then
    ({ st with disk := assocSet st.disk path creds, cache := assocSet st.cache path creds },
     true)
  else (st, false)

/-- `OpenAICodexAuthBase._queue_refresh` (the scheduled coroutine's effect). -/
def queue_refresh (st : AuthState) (now : Int) (path : String) (force needs_reauth : Bool) :
    AuthState :=
  if !needs_reauth &&
     (match List.lookup path st.next_refresh_after with
      | some b => b ≠ 0 && now < b
      | none => false) then st
  else if path ∈ st.queued then st
  else
    let st := { st with queued := st.queued ++ [path] }
    if needs_reauth then
      { st with unavailable := assocSet st.unavailable path now
                reauthQueue := st.reauthQueue ++ [path] }
    else { st with refreshQueue := st.refreshQueue ++ [(path, force)] }

/-- `OpenAICodexAuthBase.is_credential_available` (returning the updated
state — stale unavailability entries are auto-cleaned and an expired cached
token schedules a background refresh — together with the availability
verdict). -/
def is_credential_available (st : AuthState) (now : Int) (path : String) :
    AuthState × Bool :=
  let check_expiry := fun (st : AuthState) =>
    match List.lookup path st.cache with
    | some creds =>
      if is_token_truly_expired now creds then
        (if path ∉ st.queued then (queue_refresh st now path true false, false)
         else (st, false))
      else (st, true)
    | none => (st, true)
  match List.lookup path st.unavailable with
  | some marked_time =>
    if now - marked_time > unavailable_ttl_seconds then
      check_expiry { st with unavailable := assocPop st.unavailable path
                             queued := st.queued.filter (fun q => q ≠ path) }
    else (st, false)
  | none => check_expiry st

/-- What one `httpx.HTTPStatusError` branch of `_refresh_token` does next:
raise `CredentialNeedsReauthError`, re-raise the HTTP error, or fall into
the sleep-and-retry flow (429 / 5xx, abstracted). -/
inductive HttpFailureAction where
  | needsReauth
  | reraise
  | retryOrBackoff
deriving Repr, DecidableEq

/-- The `except httpx.HTTPStatusError` handler of
`OpenAICodexAuthBase._refresh_token`: classify the failed refresh attempt
and perform the re-auth queueing side effect. -/
def refresh_on_http_status_error (st : AuthState) (now : Int) (path : String)
    (status : Int) (error_type error_desc : String) : AuthState × HttpFailureAction :=
  if status = 400 then
    if error_type = "invalid_grant" || strContains (lowerStr error_desc) "invalid_grant" ||
       strContains (lowerStr error_desc) "invalid" then
      (queue_refresh st now path true true, .needsReauth)
    else (st, .reraise)
  else if status = 401 || status = 403 then
    (queue_refresh st now path true true, .needsReauth)
  else if status = 429 then (st, .retryOrBackoff)
  else if 500 ≤ status ∧ status < 600 then (st, .retryOrBackoff)
  else (st, .reraise)

/-- The JSON body of a successful token-endpoint response. -/
structure TokenData where
  access_token : Option String
  refresh_token : Option String
  id_token : Option String
  expires_in : Option Int
deriving Repr, DecidableEq

/-- Outcome of the refresh POST (the 429/5xx/network retry loop is
abstracted into a single terminal outcome). -/
inductive RefreshHttp where
  | success (tok : TokenData)
  | statusError (status : Int) (error_type error_desc : String)
deriving Repr, DecidableEq

/-- Errors `_refresh_token` can raise. -/
inductive RefreshErr where
  | needsReauth
  | httpError (status : Int)
  | retryExhausted (status : Int)
  | ioError
  | valueError
deriving Repr, DecidableEq

/-- `OpenAICodexAuthBase._read_creds_from_file`: read from disk, normalise,
update the cache (`none` = the raised `IOError`). -/
def read_creds_from_file (st : AuthState) (path : String) : AuthState × Option Creds :=
  match List.lookup path st.disk with
  | some c =>
    let c := ensure_proxy_metadata c
    ({ st with cache := assocSet st.cache path c }, some c)
  | none => (st, none)

/-- `OpenAICodexAuthBase._load_credentials` (cache, then env for virtual
paths, then file with legacy-env fallback). -/
def load_credentials (st : AuthState) (path : String) : AuthState × Option Creds :=
  match List.lookup path st.cache with
  | some c => (st, some c)
  | none =>
    match parse_env_credential_path path with
    | some idx =>
      (match List.lookup idx st.envCreds with
       | some c => ({ st with cache := assocSet st.cache path c }, some c)
       | none => (st, none))
    | none =>
      match List.lookup path st.disk with
      | some c =>
        let c := ensure_proxy_metadata c
        ({ st with cache := assocSet st.cache path c }, some c)
      | none =>
        match List.lookup "0" st.envCreds with
        | some c => ({ st with cache := assocSet st.cache path c }, some c)
        | none => (st, none)

/-- `OpenAICodexAuthBase._refresh_token` with the HTTP outcome and the disk
write outcome injected. Clock readings are collapsed to one instant `now`
(seconds). -/
def refresh_token (st : AuthState) (now : Int) (path : String) (force : Bool)
    (http : RefreshHttp) (writeOk : Bool) : AuthState × Except RefreshErr Creds :=
  -- early return on a still-valid cached token
  let cached := List.lookup path st.cache
  match cached with
  | some c =>
    if !force && !is_token_expired now c then (st, .ok c)
    else refreshAttempt st now path http writeOk
  | none => refreshAttempt st now path http writeOk
where
  /-- The body after the early-return check: re-read the source, POST, and
  persist. -/
  refreshAttempt (st : AuthState) (now : Int) (path : String) (http : RefreshHttp)
      (writeOk : Bool) : AuthState × Except RefreshErr Creds :=
    let is_env := (parse_env_credential_path path).isSome
    let (st, source?) :=
      if is_env then load_credentials st path else read_creds_from_file st path
    match source? with
    | none => (st, .error .ioError)
    | some source_creds =>
      if source_creds.refresh_token = "" then (st, .error .valueError)
      else
        match http with
        | .statusError status error_type error_desc =>
          let (st, action) := refresh_on_http_status_error st now path status error_type
            error_desc
          (st, .error (match action with
            | .needsReauth => .needsReauth
            | .reraise => .httpError status
            | .retryOrBackoff => .retryExhausted status))
        | .success tok =>
          match tok.access_token with
          | none => (st, .error .valueError)
          | some access_token =>
            if access_token = "" then (st, .error .valueError)
            else
              match tok.expires_in with
              | none => (st, .error .valueError)
              | some expires_in =>
                let updated := { source_creds with
                  access_token := access_token
                  refresh_token := (tok.refresh_token).getD source_creds.refresh_token
                  id_token := match tok.id_token with
                    | some i => if i ≠ "" then some i else source_creds.id_token
                    | none => source_creds.id_token
                  expiry_date := (now + expires_in) * 1000
                  token_uri := TOKEN_ENDPOINT }
                let updated := ensure_proxy_metadata updated
                if updated.access_token = "" ∨ updated.refresh_token = "" then
                  (st, .error .valueError)
                else
                  -- successful refresh clears backoff tracking
                  let st := { st with
                    refresh_failures := assocPop st.refresh_failures path
                    next_refresh_after := assocPop st.next_refresh_after path }
                  -- persist before mutating shared cache state
                  let (st, saved) := save_credentials st writeOk path updated
                  if !saved then (st, .error .ioError)
                  else (st, .ok ((List.lookup path st.cache).getD updated))

end Auth

namespace Usage

/-- One rolling usage window (`WindowStats`). Numeric counters and the
float-valued `approx_cost` / timestamps are modelled as integers. -/
structure WindowStats where
  name : String
  request_count : Int
  success_count : Int
  failure_count : Int
  prompt_tokens : Int
  completion_tokens : Int
  thinking_tokens : Int
  output_tokens : Int
  prompt_tokens_cache_read : Int
  prompt_tokens_cache_write : Int
  total_tokens : Int
  approx_cost : Int
  started_at : Option Int
  reset_at : Option Int
  limit : Option Int
  max_recorded_requests : Option Int
  max_recorded_at : Option Int
  first_used_at : Option Int
  last_used_at : Option Int
deriving Repr, DecidableEq

/-- The serialised form of a window: the dict written by
`_serialize_window_stats`, minus the derived `*_human` display strings,
which `_parse_window_stats` never reads. -/
structure StoredWindow where
  request_count : Int
  success_count : Int
  failure_count : Int
  prompt_tokens : Int
  completion_tokens : Int
  thinking_tokens : Int
  output_tokens : Int
  prompt_tokens_cache_read : Int
  prompt_tokens_cache_write : Int
  total_tokens : Int
  approx_cost : Int
  started_at : Option Int
  reset_at : Option Int
  limit : Option Int
  max_recorded_requests : Option Int
  max_recorded_at : Option Int
  first_used_at : Option Int
  last_used_at : Option Int
deriving Repr, DecidableEq

/-- `UsageStorage._serialize_window_stats`. -/
def serialize_window_stats (w : WindowStats) : StoredWindow :=
  { request_count := w.request_count
    success_count := w.success_count
    failure_count := w.failure_count
    prompt_tokens := w.prompt_tokens
    completion_tokens := w.completion_tokens
    thinking_tokens := w.thinking_tokens
    output_tokens := w.output_tokens
    prompt_tokens_cache_read := w.prompt_tokens_cache_read
    prompt_tokens_cache_write := w.prompt_tokens_cache_write
    total_tokens := w.total_tokens
    approx_cost := w.approx_cost
    started_at := w.started_at
    reset_at := w.reset_at
    limit := w.limit
    max_recorded_requests := w.max_recorded_requests
    max_recorded_at := w.max_recorded_at
    first_used_at := w.first_used_at
    last_used_at := w.last_used_at }

/-- `UsageStorage._parse_window_stats`. -/
def parse_window_stats (name : String) (d : StoredWindow) : WindowStats :=
  { name := name
    request_count := d.request_count
    success_count := d.success_count
    failure_count := d.failure_count
    prompt_tokens := d.prompt_tokens
    completion_tokens := d.completion_tokens
    thinking_tokens := d.thinking_tokens
    output_tokens := d.output_tokens
    prompt_tokens_cache_read := d.prompt_tokens_cache_read
    prompt_tokens_cache_write := d.prompt_tokens_cache_write
    total_tokens := d.total_tokens
    approx_cost := d.approx_cost
    started_at := d.started_at
    reset_at := d.reset_at
    limit := d.limit
    max_recorded_requests := d.max_recorded_requests
    max_recorded_at := d.max_recorded_at
    first_used_at := d.first_used_at
    last_used_at := d.last_used_at }

/-- Lifetime totals (`TotalStats`). -/
structure TotalStats where
  request_count : Int
  success_count : Int
  failure_count : Int
  prompt_tokens : Int
  completion_tokens : Int
  thinking_tokens : Int
  output_tokens : Int
  prompt_tokens_cache_read : Int
  prompt_tokens_cache_write : Int
  total_tokens : Int
  approx_cost : Int
  first_used_at : Option Int
  last_used_at : Option Int
deriving Repr, DecidableEq

/-- `_serialize_total_stats` writes every field `_parse_total_stats` reads
(plus ignored `*_human` strings), so the stored form coincides with
`TotalStats` and the two functions are each other's inverse field-for-field. -/
def serialize_total_stats (t : TotalStats) : TotalStats := t

/-- `UsageStorage._parse_total_stats` on a fully-populated stored dict. -/
def parse_total_stats (t : TotalStats) : TotalStats := t

/-- Per-`(credential, model)` stats (`ModelStats`). -/
structure ModelStats where
  windows : List (String × WindowStats)
  totals : TotalStats
deriving Repr, DecidableEq

/-- Per-`(credential, quota-group)` stats (`GroupStats`). -/
structure GroupStats where
  windows : List (String × WindowStats)
  totals : TotalStats
deriving Repr, DecidableEq

/-- Stored form of `ModelStats` / `GroupStats`. -/
structure StoredStats where
  windows : List (String × StoredWindow)
  totals : TotalStats
deriving Repr, DecidableEq

/-- `UsageStorage._serialize_model_stats`. -/
def serialize_model_stats (s : ModelStats) : StoredStats :=
  { windows := s.windows.map (fun kw => (kw.1, serialize_window_stats kw.2))
    totals := serialize_total_stats s.totals }

/-- `UsageStorage._parse_model_stats` (the legacy `"total"` window name is
skipped). -/
def parse_model_stats (d : StoredStats) : ModelStats :=
  { windows := (d.windows.filter (fun kw => kw.1 ≠ "total")).map
      (fun kw => (kw.1, parse_window_stats kw.1 kw.2))
    totals := parse_total_stats d.totals }

/-- `UsageStorage._serialize_group_stats`. -/
def serialize_group_stats (s : GroupStats) : StoredStats :=
  { windows := s.windows.map (fun kw => (kw.1, serialize_window_stats kw.2))
    totals := serialize_total_stats s.totals }

/-- `UsageStorage._parse_group_stats`. -/
def parse_group_stats (d : StoredStats) : GroupStats :=
  { windows := (d.windows.filter (fun kw => kw.1 ≠ "total")).map
      (fun kw => (kw.1, parse_window_stats kw.1 kw.2))
    totals := parse_total_stats d.totals }

/-- An active cooldown (`CooldownInfo`). -/
structure CooldownInfo where
  reason : String
  until_ : Int
  started_at : Int
  source : String
  model_or_group : Option String
  backoff_count : Int
deriving Repr, DecidableEq

/-- Fair-cycle bookkeeping for one scope (`FairCycleState`); on parse its
`model_or_group` is reconstructed from the dict key. -/
structure FairCycleState where
  exhausted : Bool
  exhausted_at : Option Int
  exhausted_reason : Option String
  cycle_request_count : Int
  model_or_group : String
deriving Repr, DecidableEq

/-- Stored form of a fair-cycle entry (`model_or_group` lives in the key). -/
structure StoredFairCycle where
  exhausted : Bool
  exhausted_at : Option Int
  exhausted_reason : Option String
  cycle_request_count : Int
deriving Repr, DecidableEq

/-- Aggregate state of one credential (`CredentialState`). -/
structure CredentialState where
  stable_id : String
  provider : String
  accessor : String
  display_name : Option String
  tier : Option String
  priority : Int
  model_usage : List (String × ModelStats)
  group_usage : List (String × GroupStats)
  totals : TotalStats
  cooldowns : List (String × CooldownInfo)
  fair_cycle : List (String × FairCycleState)
  active_requests : Int
  max_concurrent : Option Int
  created_at : Option Int
  last_updated : Option Int
deriving Repr, DecidableEq

/-- The per-credential dict written by `_serialize_credential_state`
(ignored `*_human` strings omitted; the `stable_id` is the enclosing map
key). -/
structure StoredCredential where
  provider : String
  accessor : String
  display_name : Option String
  tier : Option String
  priority : Int
  model_usage : List (String × StoredStats)
  group_usage : List (String × StoredStats)
  totals : TotalStats
  cooldowns : List (String × CooldownInfo)
  fair_cycle : List (String × StoredFairCycle)
  max_concurrent : Option Int
  created_at : Option Int
  last_updated : Option Int
deriving Repr, DecidableEq

/-- `UsageStorage._serialize_credential_state`: expired cooldowns
(`until ≤ now`) are dropped; `active_requests` is not persisted. -/
def serialize_credential_state (now : Int) (s : CredentialState) : StoredCredential :=
  { provider := s.provider
    accessor := s.accessor
    display_name := s.display_name
    tier := s.tier
    priority := s.priority
    model_usage := s.model_usage.map (fun km => (km.1, serialize_model_stats km.2))
    group_usage := s.group_usage.map (fun kg => (kg.1, serialize_group_stats kg.2))
    totals := serialize_total_stats s.totals
    cooldowns := s.cooldowns.filter (fun kc => kc.2.until_ > now)
    fair_cycle := s.fair_cycle.map (fun kf =>
      (kf.1,
       { exhausted := kf.2.exhausted
         exhausted_at := kf.2.exhausted_at
         exhausted_reason := kf.2.exhausted_reason
         cycle_request_count := kf.2.cycle_request_count }))
    max_concurrent := s.max_concurrent
    created_at := s.created_at
    last_updated := s.last_updated }

/-- `UsageStorage._parse_credential_state`; the `except` branch returning
`None` is unreachable on typed stored data, and `active_requests` always
starts at 0. -/
def parse_credential_state (stable_id : String) (d : StoredCredential) :
    Option CredentialState :=
  some
    { stable_id := stable_id
      provider := d.provider
      accessor := d.accessor
      display_name := d.display_name
      tier := d.tier
      priority := d.priority
      model_usage := d.model_usage.map (fun km => (km.1, parse_model_stats km.2))
      group_usage := d.group_usage.map (fun kg => (kg.1, parse_group_stats kg.2))
      totals := parse_total_stats d.totals
      cooldowns := d.cooldowns
      fair_cycle := d.fair_cycle.map (fun kf =>
        (kf.1,
         { exhausted := kf.2.exhausted
           exhausted_at := kf.2.exhausted_at
           exhausted_reason := kf.2.exhausted_reason
           cycle_request_count := kf.2.cycle_request_count
           model_or_group := kf.1 }))
      active_requests := 0
      max_concurrent := d.max_concurrent
      created_at := d.created_at
      last_updated := d.last_updated }

end Usage

namespace Creds

open PyStr

/-- Consume an expected leading character sequence, returning the rest. -/
def dropLeading : List Char → List Char → Option (List Char)
  | [], rest => some rest
  | _ :: _, [] => none
  | p :: ps, c :: cs => if c = p then dropLeading ps cs else none

/-- Consume an expected trailing character sequence, returning the front. -/
def dropTrailing (tail l : List Char) : Option (List Char) :=
  (dropLeading tail.reverse l.reverse).map List.reverse

/-- The regex `^<pfx>_(\d+)_ACCESS_TOKEN$` of
`_discover_env_oauth_credentials`: returns the digit group. -/
def match_numbered_access_key (pfx key : String) : Option String :=
  match dropLeading (pfx.data ++ ['_']) key.data with
  | some rest =>
    match dropTrailing "_ACCESS_TOKEN".data rest with
    | some mid =>
      if mid ≠ [] ∧ mid.all (fun c => c.isDigit) then some (String.mk mid) else none
    | none => none
  | none => none

/-- `ENV_OAUTH_PROVIDERS` from `credential_manager.py`. -/
def env_oauth_providers : List (String × String) :=
  [("gemini_cli", "GEMINI_CLI"),
   ("antigravity", "ANTIGRAVITY"),
   ("qwen_code", "QWEN_CODE"),
   ("iflow", "IFLOW"),
   ("openai_codex", "OPENAI_CODEX")]

/-- One step of the numbered-credential scan: when the key matches the
numbered pattern, verify a non-empty refresh token and add the index to the
set. -/
def numbered_step (env : List (String × String)) (pfx : String)
    (acc : List String) (kv : String × String) : List String :=
  match match_numbered_access_key pfx kv.1 with
  | some idx =>
    (match List.lookup (pfx ++ "_" ++ idx ++ "_REFRESH_TOKEN") env with
     | some rv => if rv ≠ "" ∧ idx ∉ acc then acc ++ [idx] else acc
     | none => acc)
  | none => acc

/-- The numbered-credential scan of `_discover_env_oauth_credentials`: the
indices whose `<pfx>_<N>_ACCESS_TOKEN` key exists and whose
`<pfx>_<N>_REFRESH_TOKEN` is present and non-empty. The Python `set` is
modelled as a deduplicated list in discovery order (the subsequent
`sorted(…, key=int)` makes the iteration order irrelevant). -/
def numbered_indices (env : List (String × String)) (pfx : String) : List String :=
  env.foldl (numbered_step env pfx) []

/-- The legacy single-credential check: `<pfx>_ACCESS_TOKEN` and
`<pfx>_REFRESH_TOKEN` both present and non-empty. -/
def legacy_pair_present (env : List (String × String)) (pfx : String) : Bool :=
  (match List.lookup (pfx ++ "_ACCESS_TOKEN") env with
   | some v => v ≠ ""
   | none => false) &&
  (match List.lookup (pfx ++ "_REFRESH_TOKEN") env with
   | some v => v ≠ ""
   | none => false)

/-- The per-provider index set of `_discover_env_oauth_credentials`: the
legacy pair is consulted only when no numbered credential was found. -/
def discover_indices (env : List (String × String)) (pfx : String) : List String :=
  let found := numbered_indices env pfx
  if found.isEmpty then (if legacy_pair_present env pfx then ["0"] else []) else found

/-- `sorted(indices, key=lambda x: int(x))`. -/
def sortNumeric (idxs : List String) : List String :=
  List.insertionSort (fun a b => digitsVal a.data ≤ digitsVal b.data) idxs

/-- The virtual paths produced for one provider. -/
def provider_paths (env : List (String × String)) (provider pfx : String) : List String :=
  (sortNumeric (discover_indices env pfx)).map (fun idx => "env://" ++ provider ++ "/" ++ idx)

/-- `CredentialManager._discover_env_oauth_credentials`: provider → virtual
paths, for providers with at least one discovered credential. -/
def discover_env_oauth_credentials (env : List (String × String)) :
    List (String × List String) :=
  env_oauth_providers.foldr
    (fun pv acc =>
      if (discover_indices env pv.2).isEmpty then acc
      else (pv.1, provider_paths env pv.1 pv.2) :: acc)
    []

end Creds

namespace Codex

/-- Spec-side description of "the incomplete reason": the string at
`response.incomplete_details.reason`, when present. -/
def incompleteReasonOf (event : JObj) : Option String :=
  match List.lookup "response" event with
  | some (.obj r) =>
    (match List.lookup "incomplete_details" r with
     | some (.obj d) =>
       (match List.lookup "reason" d with
        | some (.str s) => some s
        | _ => none)
     | _ => none)
  | _ => none

/-- Spec-side finish-reason table of the amended incomplete-reason claim:
`stop`/`completed` → `stop`; `max_output_tokens`/`max_tokens`/`length` →
`length`; `tool_calls`/`tool_call` → `tool_calls`;
`content_filter`/`content_filtered` → `content_filter`; anything else
(including a missing or empty reason) → `length`; matching is on the
whitespace-stripped, lowercased reason. -/
def amendedIncompleteFinish (reason : Option String) : String :=
  match reason with
  | none => "length"
  | some r =>
    if r = "" then "length"
    else
      let n := PyStr.lowerStr (PyStr.stripStr r)
      if n = "stop" ∨ n = "completed" then "stop"
      else if n = "max_output_tokens" ∨ n = "max_tokens" ∨ n = "length" then "length"
      else if n = "tool_calls" ∨ n = "tool_call" then "tool_calls"
      else if n = "content_filter" ∨ n = "content_filtered" then "content_filter"
      else "length"

end Codex

namespace ProxyApp

open Codex (JVal)

/-- A chunk that carries a tool-call delta: `choices[0].delta.tool_calls`
is a non-empty array. -/
def chunkHasToolCallDelta : JVal → Bool
  | .obj fields =>
    match List.lookup "choices" fields with
    | some (.arr (.obj cf :: _)) =>
      (match List.lookup "delta" cf with
       | some (.obj items) =>
         (match List.lookup "tool_calls" items with
          | some (.arr (_ :: _)) => true
          | _ => false)
       | _ => false)
    | _ => false
  | _ => false

end ProxyApp

namespace Auth

/-- Whether a refresh result returned credentials (rather than raising). -/
def refreshOutcomeOk : Except RefreshErr Creds → Bool
  | .ok _ => true
  | .error _ => false

end Auth

namespace Fixtures

open Codex

/-- A concrete `response.completed` event with usage. -/
def completedEvent : JObj :=
  [("type", .str "response.completed"),
   ("response", .obj [("id", .str "resp_1"),
     ("usage", .obj [("input_tokens", .num 21), ("output_tokens", .num 13),
       ("total_tokens", .num 34)])])]

/-- A concrete `response.incomplete` event. -/
def incompleteEvent : JObj :=
  [("type", .str "response.incomplete"),
   ("response", .obj [("incomplete_details", .obj [("reason", .str "max_output_tokens")])])]

/-- A concrete provider-signalled `error` event. -/
def errorEvent : JObj :=
  [("type", .str "error"),
   ("error", .obj [("code", .str "usage_limit_reached"), ("message", .str "quota reached"),
     ("type", .str "rate_limit_error")])]

/-- A fresh translator. -/
def st0 : TranslatorState := initTranslator "openai_codex/gpt-5.1-codex" 7 "chatcmpl-codex-1"

/-- A stream that yielded one chunk and then failed. -/
def failedStream : ProxyApp.PyStream :=
  { items := ["data: \x7b\"id\": \"c\"\x7d\n\n"], err := some "boom" }

/-- A credential expiring at epoch-ms 2 000 000 (epoch-second 2000). -/
def credW : Auth.Creds :=
  { access_token := "at", refresh_token := "rt", id_token := none,
    expiry_date := 2000000, token_uri := "https://auth.openai.com/oauth/token",
    loaded_from_env := false }

/-- An auth state caching `credW` under the file path `"p"`. -/
def authSt : Auth.AuthState :=
  { cache := [("p", credW)], disk := [("p", credW)], envCreds := [], queued := [],
    unavailable := [], reauthQueue := [], refreshQueue := [], next_refresh_after := [],
    refresh_failures := [] }

/-- An environment-backed credential (virtual `env://` accessor). -/
def envCred : Auth.Creds :=
  { access_token := "old", refresh_token := "r0", id_token := none, expiry_date := 0,
    token_uri := "https://auth.openai.com/oauth/token", loaded_from_env := true }

/-- An auth state holding only the env-backed credential. -/
def envSt : Auth.AuthState :=
  { cache := [("env://openai_codex/1", envCred)], disk := [],
    envCreds := [("1", envCred)], queued := [], unavailable := [], reauthQueue := [],
    refreshQueue := [], next_refresh_after := [], refresh_failures := [] }

/-- A successful token-endpoint response body. -/
def tok0 : Auth.TokenData :=
  { access_token := some "new", refresh_token := some "r1", id_token := none,
    expires_in := some 3600 }

/-- One concrete usage window named `daily`. -/
def win1 : Usage.WindowStats :=
  { name := "daily", request_count := 5, success_count := 4, failure_count := 1,
    prompt_tokens := 100, completion_tokens := 40, thinking_tokens := 0,
    output_tokens := 40, prompt_tokens_cache_read := 0, prompt_tokens_cache_write := 0,
    total_tokens := 140, approx_cost := 0, started_at := some 0, reset_at := some 86400,
    limit := none, max_recorded_requests := some 5, max_recorded_at := some 10,
    first_used_at := some 1, last_used_at := some 10 }

/-- Concrete lifetime totals. -/
def tot1 : Usage.TotalStats :=
  { request_count := 6, success_count := 5, failure_count := 1, prompt_tokens := 120,
    completion_tokens := 45, thinking_tokens := 0, output_tokens := 45,
    prompt_tokens_cache_read := 0, prompt_tokens_cache_write := 0, total_tokens := 165,
    approx_cost := 0, first_used_at := some 1, last_used_at := some 10 }

/-- A credential state with one model window, one active and one expired
cooldown, and one fair-cycle entry. -/
def credState : Usage.CredentialState :=
  { stable_id := "sid", provider := "openai_codex", accessor := "p",
    display_name := none, tier := none, priority := 3,
    model_usage := [("gpt-5-codex", { windows := [("daily", win1)], totals := tot1 })],
    group_usage := [],
    totals := tot1,
    cooldowns :=
      [("m", { reason := "rate_limit", until_ := 1000, started_at := 40,
               source := "provider_header", model_or_group := some "m", backoff_count := 1 }),
       ("g", { reason := "quota_exceeded", until_ := 50, started_at := 30,
               source := "provider_error", model_or_group := some "g", backoff_count := 0 })],
    fair_cycle :=
      [("m", { exhausted := true, exhausted_at := some 60,
               exhausted_reason := some "quota", cycle_request_count := 6,
               model_or_group := "m" })],
    active_requests := 2, max_concurrent := none, created_at := some 1,
    last_updated := some 10 }

/-- A concrete translated chunk list containing a tool-call delta and a
`stop` terminal chunk. -/
def c4chunks : List Chunk :=
  [{ id := "chatcmpl-1", created := 0, model := "m",
     delta := Delta.toolCalls { index := 0, id := "call_1", name := "get", arguments := "" },
     finish_reason := none, usage := none },
   { id := "chatcmpl-1", created := 0, model := "m", delta := Delta.empty,
     finish_reason := some "stop", usage := none }]

/-- A concrete OpenAI-style JSON chunk list containing a tool-call delta
and a `stop` finish reason. -/
def c4jchunks : List JVal :=
  [ .obj [("id", .str "c1"),
      ("choices", .arr [ .obj [
        ("delta", .obj [("tool_calls", .arr [ .obj [
            ("index", .num 0), ("id", .str "call_1"),
            ("function", .obj [("name", .str "get"), ("arguments", .str "")])]])]),
        ("finish_reason", .str "stop")]])] ]

/-- The aggregation of `c4jchunks`. -/
def c4res : ProxyApp.AggregateResult :=
  { id := some (.str "c1"),
    created := none,
    model := none,
    message := [("role", .str "assistant"),
                ("tool_calls", .arr [ .obj [
                  ("type", .str "function"),
                  ("function", .obj [("name", .str "get"), ("arguments", .str "")]),
                  ("id", .str "call_1")]]),
                ("content", .null),
                ("function_call", .null)],
    finish_reason := some (.str "tool_calls"),
    usage := none }

/-- A concrete SSE event sequence with two interleaved tool calls. -/
def c10events : List JObj :=
  [ [("type", .str "response.created"),
     ("response", .obj [("id", .str "resp_1"), ("created_at", .num 111)])],
    [("type", .str "response.output_item.added"),
     ("item", .obj [("type", .str "function_call"), ("call_id", .str "call_1"),
       ("name", .str "get_weather"), ("arguments", .str "")])],
    [("type", .str "response.function_call_arguments.delta"),
     ("call_id", .str "call_1"), ("delta", .str "x")],
    [("type", .str "response.output_item.added"),
     ("item", .obj [("type", .str "function_call"), ("call_id", .str "call_2"),
       ("name", .str "lookup_city"), ("arguments", .str "")])],
    [("type", .str "response.function_call_arguments.done"),
     ("call_id", .str "call_1"), ("arguments", .str "xy")],
    [("type", .str "response.completed"),
     ("response", .obj [("id", .str "resp_1")])] ]

/-- The final translator state after `c10events`. -/
def c10fin : StreamEnd :=
  .done
    { model_id := "m",
      response_id := some "resp_1",
      created := 111,
      tool_index_by_call_id := [("call_1", 0), ("call_2", 1)],
      tool_names_by_call_id := [("call_1", "get_weather"), ("call_2", "lookup_city")],
      fallbackId := "fb" }

/-- The chunks translated from `c10events`. -/
def c10chunks : List Chunk :=
  [{ id := "resp_1", created := 111, model := "m",
     delta := Delta.toolCalls ⟨0, "call_1", "get_weather", ""⟩,
     finish_reason := none, usage := none },
   { id := "resp_1", created := 111, model := "m",
     delta := Delta.toolCalls ⟨0, "call_1", "get_weather", "x"⟩,
     finish_reason := none, usage := none },
   { id := "resp_1", created := 111, model := "m",
     delta := Delta.toolCalls ⟨1, "call_2", "lookup_city", ""⟩,
     finish_reason := none, usage := none },
   { id := "resp_1", created := 111, model := "m",
     delta := Delta.toolCalls ⟨0, "call_1", "get_weather", "xy"⟩,
     finish_reason := none, usage := none },
   { id := "resp_1", created := 111, model := "m", delta := Delta.empty,
     finish_reason := some "stop", usage := none }]

end Fixtures

section ClaimTheorems

open Codex PyStr

/-- C2 — counterexample: an SSE event of type `response.completed` whose
`response.status` is `"incomplete"` yields a terminal chunk with
`finish_reason = "length"`, not `"stop"` as the claim demands for every
`response.completed` event. -/
theorem c2_claim_counterexample :
    (match Codex.process_event (Codex.initTranslator "m" 0 "cid")
        [("type", JVal.str "response.completed"),
         ("response", JVal.obj [("status", JVal.str "incomplete")])] with
     | some (.ok _ cs) => cs.map (fun c => c.finish_reason)
     | _ => []) = [some "length"] ∧
    [some "length"] ≠ [(some "stop" : Option String)] :=
  ⟨rfl, by decide⟩

/-- C2 (amended) — for every SSE event of type `response.completed` whose
`response.status` is not the string `"incomplete"` (and whose usage fields,
when present, are well-typed), the translator emits exactly one terminal
chunk with `finish_reason = "stop"`, and when the event carries a
`response.usage` object its `input_tokens`/`output_tokens`/`total_tokens`
are mapped to the chunk's
`prompt_tokens`/`completion_tokens`/`total_tokens`. -/
theorem c2_completed_terminal_chunk
    (st : Codex.TranslatorState) (event : Codex.JObj)
    (ht : List.lookup "type" event = some (Codex.JVal.str "response.completed"))
    (hst : Codex.get_response_status event ≠ "incomplete")
    (hu : (Codex.extract_usage event).isSome) :
    ∃ st' ck, Codex.process_event st event = some (.ok st' [ck]) ∧
      ck.finish_reason = some "stop" ∧
      (∀ r u p c t, List.lookup "response" event = some (Codex.JVal.obj r) →
        List.lookup "usage" r = some (Codex.JVal.obj u) →
        List.lookup "input_tokens" u = some (Codex.JVal.num p) →
        List.lookup "output_tokens" u = some (Codex.JVal.num c) →
        List.lookup "total_tokens" u = some (Codex.JVal.num t) →
        ck.usage = some { prompt_tokens := p, completion_tokens := c, total_tokens := t }) := by
  obtain ⟨usage, hu'⟩ := Option.isSome_iff_exists.mp hu
  have htd : Codex.extract_text_delta event = none := by
    unfold Codex.extract_text_delta
    rw [ht]
    simp
  unfold Codex.process_event
  rw [ht]
  simp only [String.reduceEq, reduceIte]
  rw [htd]
  unfold Codex.process_event.processTerminal
  simp only [String.reduceEq, reduceIte, or_self, or_true, true_or, or_false, false_or]
  rw [hu']
  simp only [if_neg hst]
  refine ⟨_, _, rfl, rfl, ?_⟩
  intro r u p c t hr hu2 hp hc htot
  have hux : Codex.extract_usage event =
      some (some { prompt_tokens := p, completion_tokens := c, total_tokens := t }) := by
    unfold Codex.extract_usage
    simp only [hr, hu2, hp, hc, htot, Codex.intOr0?]
  rw [hu'] at hux
  simp only [Option.some.injEq] at hux
  subst hux
  simp [Codex.build_chunk]

/-- C2 witness: the amended theorem applied to the concrete completed
event. -/
theorem c2_completed_terminal_chunk_witness :
    (List.lookup "type" Fixtures.completedEvent = some (Codex.JVal.str "response.completed")) ∧
    Codex.get_response_status Fixtures.completedEvent ≠ "incomplete" ∧
    (Codex.extract_usage Fixtures.completedEvent).isSome ∧
    (∃ st' ck, Codex.process_event Fixtures.st0 Fixtures.completedEvent = some (.ok st' [ck]) ∧
      ck.finish_reason = some "stop" ∧
      (∀ r u p c t,
        List.lookup "response" Fixtures.completedEvent = some (Codex.JVal.obj r) →
        List.lookup "usage" r = some (Codex.JVal.obj u) →
        List.lookup "input_tokens" u = some (Codex.JVal.num p) →
        List.lookup "output_tokens" u = some (Codex.JVal.num c) →
        List.lookup "total_tokens" u = some (Codex.JVal.num t) →
        ck.usage = some { prompt_tokens := p, completion_tokens := c, total_tokens := t })) :=
  ⟨rfl, by decide, rfl,
   c2_completed_terminal_chunk Fixtures.st0 Fixtures.completedEvent rfl (by decide) rfl⟩

/-- C3 — counterexample: an SSE event of type `response.incomplete` whose
incomplete reason is `"stop"` yields `finish_reason = "stop"`, although the
claim demands `"length"` for every reason other than
`max_output_tokens`/`tool_calls`/`content_filter`. -/
theorem c3_claim_counterexample :
    (match Codex.process_event (Codex.initTranslator "m" 0 "cid")
        [("type", JVal.str "response.incomplete"),
         ("response", JVal.obj [("incomplete_details",
            JVal.obj [("reason", JVal.str "stop")])])] with
     | some (.ok _ cs) => cs.map (fun c => c.finish_reason)
     | _ => []) = [some "stop"] ∧
    [some "stop"] ≠ [(some "length" : Option String)] :=
  ⟨rfl, by decide⟩

/-- C3 (amended) — for every SSE event of type `response.incomplete` whose
`response.status` does not override the incomplete status, the translator
emits one terminal chunk whose `finish_reason` follows the amended table
(`amendedIncompleteFinish`): `length` for `max_output_tokens` (also
`max_tokens`/`length`), `tool_calls` for `tool_calls`/`tool_call`,
`content_filter` for `content_filter`/`content_filtered`, `stop` for
`stop`/`completed`, and `length` for every other, missing or non-string
reason. -/
theorem c3_incomplete_finish_reason
    (st : Codex.TranslatorState) (event : Codex.JObj)
    (ht : List.lookup "type" event = some (Codex.JVal.str "response.incomplete"))
    (hst : Codex.get_response_status event = "incomplete")
    (hu : (Codex.extract_usage event).isSome) :
    ∃ st' ck, Codex.process_event st event = some (.ok st' [ck]) ∧
      ck.finish_reason =
        some (Codex.amendedIncompleteFinish (Codex.incompleteReasonOf event)) := by
  obtain ⟨usage, hu'⟩ := Option.isSome_iff_exists.mp hu
  have htd : Codex.extract_text_delta event = none := by
    unfold Codex.extract_text_delta
    rw [ht]
    simp
  unfold Codex.process_event
  rw [ht]
  simp only [String.reduceEq, reduceIte]
  rw [htd]
  unfold Codex.process_event.processTerminal
  simp only [String.reduceEq, reduceIte, or_self, or_true, true_or, or_false, false_or]
  rw [hu']
  simp only [hst, String.reduceEq, reduceIte]
  refine ⟨_, _, rfl, ?_⟩
  simp only [Codex.build_chunk]
  unfold Codex.incompleteReasonOf
  rcases hres : List.lookup "response" event with _ | v
  · simp [Codex.amendedIncompleteFinish]
  · rcases v with _ | b | n | s | xs | r
    · simp [Codex.amendedIncompleteFinish]
    · simp [Codex.amendedIncompleteFinish]
    · simp [Codex.amendedIncompleteFinish]
    · simp [Codex.amendedIncompleteFinish]
    · simp [Codex.amendedIncompleteFinish]
    · rcases hdet : List.lookup "incomplete_details" r with _ | dv
      · simp [hdet, Codex.amendedIncompleteFinish]
      · rcases dv with _ | b2 | n2 | s2 | xs2 | d
        · simp [hdet, Codex.amendedIncompleteFinish]
        · simp [hdet, Codex.amendedIncompleteFinish]
        · simp [hdet, Codex.amendedIncompleteFinish]
        · simp [hdet, Codex.amendedIncompleteFinish]
        · simp [hdet, Codex.amendedIncompleteFinish]
        · rcases hreason : List.lookup "reason" d with _ | rv
          · simp [hdet, hreason, Codex.amendedIncompleteFinish]
          · rcases rv with _ | b3 | n3 | s3 | xs3 | o3
            · simp [hdet, hreason, Codex.amendedIncompleteFinish]
            · simp [hdet, hreason, Codex.amendedIncompleteFinish]
            · simp [hdet, hreason, Codex.amendedIncompleteFinish]
            · simp [hdet, hreason, Codex.map_incomplete_reason,
                Codex.amendedIncompleteFinish]
            · simp [hdet, hreason, Codex.amendedIncompleteFinish]
            · simp [hdet, hreason, Codex.amendedIncompleteFinish]

/-- C3 witness: the amended theorem applied to the concrete incomplete
event (reason `max_output_tokens` maps to `length`). -/
theorem c3_incomplete_finish_reason_witness :
    (List.lookup "type" Fixtures.incompleteEvent = some (Codex.JVal.str "response.incomplete")) ∧
    Codex.get_response_status Fixtures.incompleteEvent = "incomplete" ∧
    (Codex.extract_usage Fixtures.incompleteEvent).isSome ∧
    (∃ st' ck, Codex.process_event Fixtures.st0 Fixtures.incompleteEvent = some (.ok st' [ck]) ∧
      ck.finish_reason =
        some (Codex.amendedIncompleteFinish (Codex.incompleteReasonOf Fixtures.incompleteEvent))) :=
  ⟨rfl, rfl, rfl,
   c3_incomplete_finish_reason Fixtures.st0 Fixtures.incompleteEvent rfl rfl rfl⟩

/-- Helper: `json_dumps` of a dict is never the empty string. -/
theorem json_dumps_obj_ne_empty (kvs : Codex.JObj) : Codex.json_dumps (Codex.JVal.obj kvs) ≠ "" := by
  intro h
  have h' := congrArg String.data h
  simp only [Codex.json_dumps, String.data_append] at h'
  simp at h'

/-- C1 — for every SSE event of type `error` or `response.failed` the
translator raises a typed `CodexStreamError` whose `status_code` is the
classification of the extracted error payload and whose `error_body` is the
JSON of that payload (or of the whole event when no payload was found); and
an outbound chunk stream that fails after it started ends with a synthetic
error chunk followed by the `data: [DONE]` sentinel instead of propagating
the exception to the client. -/
theorem c1_stream_error_terminalization
    (st : Codex.TranslatorState) (event : Codex.JObj) (t : String)
    (ht : List.lookup "type" event = some (Codex.JVal.str t))
    (herr : t = "error" ∨ t = "response.failed")
    (s : ProxyApp.PyStream) (msg : String) (hs : s.err = some msg) :
    (∃ st' e, Codex.process_event st event = some (.streamError st' e) ∧
      e.status_code = Codex.classify_error_status (Codex.extract_error_payload event) ∧
      e.error_body = Codex.json_dumps
        (if !(Codex.extract_error_payload event).isEmpty then
          Codex.JVal.obj [("error", Codex.JVal.obj (Codex.extract_error_payload event))]
         else Codex.JVal.obj event)) ∧
    ProxyApp.streaming_response_wrapper s =
      s.items ++
        ["data: " ++ Codex.json_dumps (ProxyApp.stream_error_payload msg) ++ "\n\n",
         "data: [DONE]\n\n"] := by
  constructor
  · have htd : Codex.extract_text_delta event = none := by
      unfold Codex.extract_text_delta
      rw [ht]
      rcases herr with h | h <;> subst h <;> simp
    unfold Codex.process_event
    rw [ht]
    rcases herr with h | h <;> subst h <;>
      simp only [String.reduceEq, reduceIte] <;>
      rw [htd] <;>
      unfold Codex.process_event.processTerminal <;>
      simp only [String.reduceEq, reduceIte, or_self, or_true, true_or, or_false, false_or] <;>
      refine ⟨_, _, rfl, rfl, ?_⟩ <;>
      simp only [Codex.mkCodexStreamError] <;>
      rw [if_pos (show _ ≠ "" by split <;> exact json_dumps_obj_ne_empty _)]
  · unfold ProxyApp.streaming_response_wrapper
    rw [hs]

/-- C1 witness: the theorem applied to a concrete `error` event and a
concrete failed stream. -/
theorem c1_stream_error_terminalization_witness :
    (List.lookup "type" Fixtures.errorEvent = some (Codex.JVal.str "error")) ∧
    ("error" = "error" ∨ "error" = "response.failed") ∧
    Fixtures.failedStream.err = some "boom" ∧
    ((∃ st' e, Codex.process_event Fixtures.st0 Fixtures.errorEvent = some (.streamError st' e) ∧
      e.status_code = Codex.classify_error_status (Codex.extract_error_payload Fixtures.errorEvent) ∧
      e.error_body = Codex.json_dumps
        (if !(Codex.extract_error_payload Fixtures.errorEvent).isEmpty then
          Codex.JVal.obj [("error", Codex.JVal.obj (Codex.extract_error_payload Fixtures.errorEvent))]
         else Codex.JVal.obj Fixtures.errorEvent)) ∧
    ProxyApp.streaming_response_wrapper Fixtures.failedStream =
      Fixtures.failedStream.items ++
        ["data: " ++ Codex.json_dumps (ProxyApp.stream_error_payload "boom") ++ "\n\n",
         "data: [DONE]\n\n"]) :=
  ⟨rfl, Or.inl rfl, rfl,
   c1_stream_error_terminalization Fixtures.st0 Fixtures.errorEvent "error" rfl (Or.inl rfl)
     Fixtures.failedStream "boom" rfl⟩

/-- C7 — the availability check returns `true` iff the credential is not
currently marked unavailable for re-auth (a mark older than the 360 s TTL
is stale and auto-cleaned) and its cached token is not past its true expiry
instant; in particular a credential inside the 5-minute proactive-refresh
buffer but before its actual expiry is still available. -/
theorem c7_availability_iff (st : Auth.AuthState) (now : Int) (path : String) :
    ((Auth.is_credential_available st now path).2 = true ↔
      (¬ ∃ mt, List.lookup path st.unavailable = some mt ∧
          now - mt ≤ Auth.unavailable_ttl_seconds) ∧
      (¬ ∃ c, List.lookup path st.cache = some c ∧ c.expiry_date < 1000 * now)) ∧
    (∀ c, List.lookup path st.cache = some c →
      1000 * now ≤ c.expiry_date →
      c.expiry_date < 1000 * (now + Auth.REFRESH_EXPIRY_BUFFER_SECONDS) →
      (¬ ∃ mt, List.lookup path st.unavailable = some mt ∧
          now - mt ≤ Auth.unavailable_ttl_seconds) →
      (Auth.is_credential_available st now path).2 = true) := by
  have main : (Auth.is_credential_available st now path).2 = true ↔
      (¬ ∃ mt, List.lookup path st.unavailable = some mt ∧
          now - mt ≤ Auth.unavailable_ttl_seconds) ∧
      (¬ ∃ c, List.lookup path st.cache = some c ∧ c.expiry_date < 1000 * now) := by
    unfold Auth.is_credential_available
    rcases hm : List.lookup path st.unavailable with _ | mt
    · rcases hc : List.lookup path st.cache with _ | c
      · simp [hm, hc]
      · by_cases he : Auth.is_token_truly_expired now c = true
        · have he' := he
          unfold Auth.is_token_truly_expired at he'
          simp only [decide_eq_true_eq] at he'
          simp only [hm, hc, he, reduceIte]
          rw [apply_ite Prod.snd]
          simp [hm, hc, he']
        · have he' := he
          unfold Auth.is_token_truly_expired at he'
          simp only [decide_eq_true_eq] at he'
          simp only [hm, hc, he, Bool.false_eq_true, reduceIte]
          simp [he']
    · by_cases hstale : now - mt > Auth.unavailable_ttl_seconds
      · simp only [hm, if_pos hstale]
        rcases hc : List.lookup path st.cache with _ | c
        · simp [hc]
          all_goals omega
        · by_cases he : Auth.is_token_truly_expired now c = true
          · have he' := he
            unfold Auth.is_token_truly_expired at he'
            simp only [decide_eq_true_eq] at he'
            simp only [hc, he, reduceIte]
            rw [apply_ite Prod.snd]
            simp [hc, he']
          · have he' := he
            unfold Auth.is_token_truly_expired at he'
            simp only [decide_eq_true_eq] at he'
            simp only [hc, he, Bool.false_eq_true, reduceIte]
            simp [he']
            all_goals omega
      · simp only [hm, if_neg hstale]
        simp
        all_goals omega
  refine ⟨main, ?_⟩
  intro c hc hle hbuf hnm
  apply main.mpr
  refine ⟨hnm, ?_⟩
  rintro ⟨c', hc', hexp⟩
  rw [hc] at hc'
  cases hc'
  omega

/-- C7 witness: a credential 100 s inside the 5-minute proactive buffer but
before true expiry, and not marked unavailable, is reported available. -/
theorem c7_availability_iff_witness :
    List.lookup "p" Fixtures.authSt.cache = some Fixtures.credW ∧
    1000 * 1900 ≤ Fixtures.credW.expiry_date ∧
    Fixtures.credW.expiry_date < 1000 * (1900 + Auth.REFRESH_EXPIRY_BUFFER_SECONDS) ∧
    (Auth.is_credential_available Fixtures.authSt 1900 "p").2 = true :=
  ⟨rfl, by decide, by decide,
   (c7_availability_iff Fixtures.authSt 1900 "p").2 Fixtures.credW rfl (by decide) (by decide)
     (by simp [Fixtures.authSt])⟩

/-- Helper: dict assignment makes the key look up to the new value. -/
theorem lookup_assocSet_self {α : Type} (m : List (String × α)) (k : String) (v : α) :
    List.lookup k (assocSet m k v) = some v := by
  unfold assocSet
  split
  · rename_i hany
    induction m with
    | nil => simp at hany
    | cons hd tl ih =>
      obtain ⟨k1, v1⟩ := hd
      simp only [List.any_cons, Bool.or_eq_true, decide_eq_true_eq] at hany
      by_cases h : k1 = k
      · subst h
        have hif : (fun kv => if kv.1 = k1 then (k1, v) else kv) (k1, v1) = (k1, v) := by
          simp
        simp only [List.map_cons, hif]
        simp [List.lookup]
      · have hany' : (tl.any fun kv => decide (kv.1 = k)) = true := by
          rcases hany with h' | h'
          · exact absurd h' h
          · exact h'
        have hne : (k == k1) = false := beq_false_of_ne (fun hh => h hh.symm)
        simp only [List.map_cons]
        rw [if_neg h]
        simpa [List.lookup, hne] using ih hany'
  · rename_i hany
    induction m with
    | nil => simp [List.lookup]
    | cons hd tl ih =>
      obtain ⟨k1, v1⟩ := hd
      simp only [List.any_cons, Bool.or_eq_true, decide_eq_true_eq, not_or] at hany
      have hne : (k == k1) = false := beq_false_of_ne (fun hh => hany.1 hh.symm)
      simpa [List.lookup, hne] using ih (by simpa using hany.2)

/-- C6 — when a token-refresh HTTP attempt fails with `400 invalid_grant`
or with `401`/`403`, the credential is enqueued on the interactive re-auth
queue, marked unavailable (the TTL constant being 360 s), and the refresh
call raises the needs-reauth error rather than returning tokens. -/
theorem c6_refresh_auth_failure_queues_reauth
    (st : Auth.AuthState) (now : Int) (path : String) (force writeOk : Bool)
    (status : Int) (etype edesc : String) (sc : Auth.Creds)
    (hne : Auth.parse_env_credential_path path = none)
    (hdisk : List.lookup path st.disk = some sc)
    (hrt : sc.refresh_token ≠ "")
    (hgo : ∀ c, List.lookup path st.cache = some c →
      force = true ∨ Auth.is_token_expired now c = true)
    (hq : path ∉ st.queued)
    (hcond : (status = 400 ∧ (etype = "invalid_grant" ∨
        PyStr.strContains (PyStr.lowerStr edesc) "invalid_grant" = true)) ∨
      status = 401 ∨ status = 403) :
    (Auth.refresh_token st now path force (.statusError status etype edesc) writeOk).2 =
      .error .needsReauth ∧
    path ∈ (Auth.refresh_token st now path force
      (.statusError status etype edesc) writeOk).1.reauthQueue ∧
    List.lookup path (Auth.refresh_token st now path force
      (.statusError status etype edesc) writeOk).1.unavailable = some now ∧
    Auth.unavailable_ttl_seconds = 360 := by
  have hrt' : ¬ ((Auth.ensure_proxy_metadata sc).refresh_token = "") := by
    simpa [Auth.ensure_proxy_metadata] using hrt
  have hred : Auth.refresh_token.refreshAttempt st now path
      (.statusError status etype edesc) writeOk =
      (Auth.queue_refresh
        { st with cache := assocSet st.cache path (Auth.ensure_proxy_metadata sc) }
        now path true true, .error .needsReauth) := by
    unfold Auth.refresh_token.refreshAttempt
    simp only [hne, Option.isSome_none, Bool.false_eq_true, reduceIte]
    unfold Auth.read_creds_from_file
    simp only [hdisk]
    simp only [hrt', reduceIte]
    unfold Auth.refresh_on_http_status_error
    rcases hcond with ⟨h400, hinv⟩ | h401 | h403
    · subst h400
      have hb : (etype = "invalid_grant" ||
          PyStr.strContains (PyStr.lowerStr edesc) "invalid_grant" ||
          PyStr.strContains (PyStr.lowerStr edesc) "invalid") = true := by
        rcases hinv with h | h
        · simp [h]
        · simp [h]
      simp [hb]
    · subst h401
      simp
    · subst h403
      simp
  have hqueue : ∀ (st1 : Auth.AuthState), st1.queued = st.queued →
      path ∈ (Auth.queue_refresh st1 now path true true).reauthQueue ∧
      List.lookup path (Auth.queue_refresh st1 now path true true).unavailable
        = some now := by
    intro st1 h1
    unfold Auth.queue_refresh
    rw [h1]
    simp only [Bool.not_true, Bool.false_and, Bool.false_eq_true, reduceIte, if_neg hq]
    exact ⟨by simp, lookup_assocSet_self _ _ _⟩
  have hatt :
      (Auth.refresh_token.refreshAttempt st now path (.statusError status etype edesc)
        writeOk).2 = .error .needsReauth ∧
      path ∈ (Auth.refresh_token.refreshAttempt st now path
        (.statusError status etype edesc) writeOk).1.reauthQueue ∧
      List.lookup path (Auth.refresh_token.refreshAttempt st now path
        (.statusError status etype edesc) writeOk).1.unavailable = some now := by
    rw [hred]
    exact ⟨rfl,
      (hqueue { st with cache := assocSet st.cache path (Auth.ensure_proxy_metadata sc) }
        rfl).1,
      (hqueue { st with cache := assocSet st.cache path (Auth.ensure_proxy_metadata sc) }
        rfl).2⟩
  unfold Auth.refresh_token
  rcases hcache : List.lookup path st.cache with _ | c
  · simp only [hcache]
    exact ⟨hatt.1, hatt.2.1, hatt.2.2, rfl⟩
  · simp only [hcache]
    rcases hgo c hcache with hf | hexp
    · subst hf
      simp only [Bool.not_true, Bool.false_and, Bool.false_eq_true, reduceIte]
      exact ⟨hatt.1, hatt.2.1, hatt.2.2, rfl⟩
    · simp only [hexp, Bool.not_true, Bool.and_false, Bool.false_eq_true, reduceIte]
      exact ⟨hatt.1, hatt.2.1, hatt.2.2, rfl⟩

/-- C6 witness: the theorem applied to a concrete 401 refresh failure. -/
theorem c6_refresh_auth_failure_queues_reauth_witness :
    Auth.parse_env_credential_path "p" = none ∧
    List.lookup "p" Fixtures.authSt.disk = some Fixtures.credW ∧
    Fixtures.credW.refresh_token ≠ "" ∧
    "p" ∉ Fixtures.authSt.queued ∧
    ((Auth.refresh_token Fixtures.authSt 1600 "p" true (.statusError 401 "" "") false).2 =
      .error .needsReauth ∧
     "p" ∈ (Auth.refresh_token Fixtures.authSt 1600 "p" true
       (.statusError 401 "" "") false).1.reauthQueue ∧
     List.lookup "p" (Auth.refresh_token Fixtures.authSt 1600 "p" true
       (.statusError 401 "" "") false).1.unavailable = some 1600 ∧
     Auth.unavailable_ttl_seconds = 360) :=
  ⟨by decide, rfl, by decide, by decide,
   c6_refresh_auth_failure_queues_reauth Fixtures.authSt 1600 "p" true false 401 "" ""
     Fixtures.credW (by decide) rfl (by decide) (fun c _ => Or.inl rfl) (by decide)
     (Or.inr (Or.inl rfl))⟩

/-- C5 — counterexample: for an environment-backed credential path the
refresh succeeds and mutates the in-memory cache although nothing was ever
written to disk (the disk write is skipped, and its injected outcome is
`false`), so the cache is not mutated "only after the refreshed credentials
have been successfully written to disk". -/
theorem c5_claim_counterexample :
    Auth.refreshOutcomeOk (Auth.refresh_token Fixtures.envSt 100 "env://openai_codex/1"
      true (.success Fixtures.tok0) false).2 = true ∧
    (Auth.refresh_token Fixtures.envSt 100 "env://openai_codex/1"
      true (.success Fixtures.tok0) false).1.disk = Fixtures.envSt.disk ∧
    List.lookup "env://openai_codex/1" (Auth.refresh_token Fixtures.envSt 100
      "env://openai_codex/1" true (.success Fixtures.tok0) false).1.cache ≠
      List.lookup "env://openai_codex/1" Fixtures.envSt.cache :=
  ⟨by decide, by decide, by decide⟩

/-- Helper: `_ensure_proxy_metadata` is the identity on credentials whose
`token_uri` is already set. -/
theorem ensure_token_uri_nonempty (u : Auth.Creds) (h : u.token_uri ≠ "") :
    Auth.ensure_proxy_metadata u = u := by
  unfold Auth.ensure_proxy_metadata
  rw [if_neg h]

/-- C5 (amended) — for a file-backed credential path whose cached and
on-disk states agree, the refreshed credentials reach the in-memory cache
only together with a successful disk write: if the write fails the refresh
raises an IO error and both the cached and the on-disk credential are the
pre-refresh state; if it succeeds, disk and cache hold exactly the
persisted refreshed credential. (Environment-backed paths skip the disk
write and update only the cache, per the counterexample.) -/
theorem c5_refresh_persists_before_cache
    (st : Auth.AuthState) (now : Int) (path : String) (force writeOk : Bool)
    (sc : Auth.Creds) (tok : Auth.TokenData) (a : String) (ei : Int)
    (hne : Auth.parse_env_credential_path path = none)
    (hdisk : List.lookup path st.disk = some sc)
    (hnorm : Auth.ensure_proxy_metadata sc = sc)
    (henv : sc.loaded_from_env = false)
    (hagree : List.lookup path st.cache = some sc)
    (hrt : sc.refresh_token ≠ "")
    (hgo : force = true ∨ Auth.is_token_expired now sc = true)
    (ha : tok.access_token = some a) (ha' : a ≠ "")
    (hei : tok.expires_in = some ei)
    (hrt2 : ∀ r, tok.refresh_token = some r → r ≠ "") :
    (writeOk = false →
      (Auth.refresh_token st now path force (.success tok) writeOk).2 = .error .ioError ∧
      List.lookup path (Auth.refresh_token st now path force
        (.success tok) writeOk).1.cache = List.lookup path st.cache ∧
      (Auth.refresh_token st now path force (.success tok) writeOk).1.disk = st.disk) ∧
    (writeOk = true →
      ∃ u, (Auth.refresh_token st now path force (.success tok) writeOk).2 = .ok u ∧
        List.lookup path (Auth.refresh_token st now path force
          (.success tok) writeOk).1.disk = some u ∧
        List.lookup path (Auth.refresh_token st now path force
          (.success tok) writeOk).1.cache = some u) := by
  have hcnd : (!force && !Auth.is_token_expired now sc) = false := by
    rcases hgo with h | h <;> simp [h]
  have hrt'' : (tok.refresh_token.getD sc.refresh_token) ≠ "" := by
    cases h : tok.refresh_token with
    | none => simpa using hrt
    | some r => simpa using hrt2 r h
  -- the refreshed credential record that gets persisted
  set u : Auth.Creds :=
    { sc with
      access_token := a
      refresh_token := tok.refresh_token.getD sc.refresh_token
      id_token := match tok.id_token with
        | some i => if i ≠ "" then some i else sc.id_token
        | none => sc.id_token
      expiry_date := (now + ei) * 1000
      token_uri := Auth.TOKEN_ENDPOINT } with hu
  have huTok : u.token_uri = Auth.TOKEN_ENDPOINT := rfl
  have hensU : Auth.ensure_proxy_metadata u = u :=
    ensure_token_uri_nonempty u (by rw [huTok]; unfold Auth.TOKEN_ENDPOINT; decide)
  have hvalid : ¬ (u.access_token = "" ∨ u.refresh_token = "") := by
    rw [hu]
    simp [ha', hrt'']
  have hlfe : u.loaded_from_env = false := by
    rw [hu]
    exact henv
  constructor
  · intro hw
    subst hw
    have hred : Auth.refresh_token st now path force (.success tok) false =
        ({ st with
            cache := assocSet st.cache path sc
            refresh_failures := assocPop st.refresh_failures path
            next_refresh_after := assocPop st.next_refresh_after path },
         Except.error Auth.RefreshErr.ioError) := by
      unfold Auth.refresh_token
      simp only [hagree, hcnd, Bool.false_eq_true, reduceIte]
      unfold Auth.refresh_token.refreshAttempt
      simp only [hne, Option.isSome_none, Bool.false_eq_true, reduceIte]
      unfold Auth.read_creds_from_file
      simp only [hdisk, hnorm]
      rw [if_neg hrt]
      simp only [ha, hei]
      rw [if_neg ha']
      rw [← hu, hensU, if_neg hvalid]
      unfold Auth.save_credentials
      simp only [hensU, hlfe, hne, Option.isSome_none, Bool.or_self, Bool.false_eq_true,
        reduceIte]
      simp
    rw [hred]
    refine ⟨rfl, ?_, rfl⟩
    rw [hagree]
    exact lookup_assocSet_self st.cache path sc
  · intro hw
    subst hw
    have hred : Auth.refresh_token st now path force (.success tok) true =
        ({ st with
            cache := assocSet (assocSet st.cache path sc) path u
            disk := assocSet st.disk path u
            refresh_failures := assocPop st.refresh_failures path
            next_refresh_after := assocPop st.next_refresh_after path },
         Except.ok ((List.lookup path (assocSet (assocSet st.cache path sc) path u)).getD u)) := by
      unfold Auth.refresh_token
      simp only [hagree, hcnd, Bool.false_eq_true, reduceIte]
      unfold Auth.refresh_token.refreshAttempt
      simp only [hne, Option.isSome_none, Bool.false_eq_true, reduceIte]
      unfold Auth.read_creds_from_file
      simp only [hdisk, hnorm]
      rw [if_neg hrt]
      simp only [ha, hei]
      rw [if_neg ha']
      rw [← hu, hensU, if_neg hvalid]
      unfold Auth.save_credentials
      simp only [hensU, hlfe, hne, Option.isSome_none, Bool.or_self, Bool.false_eq_true,
        reduceIte]
      simp
    rw [hred]
    refine ⟨u, ?_, ?_, ?_⟩
    · simp [lookup_assocSet_self]
    · exact lookup_assocSet_self st.disk path u
    · exact lookup_assocSet_self _ path u

/-- C5 witness: the amended theorem applied to a concrete file-backed
credential with a failing disk write. -/
theorem c5_refresh_persists_before_cache_witness :
    Auth.parse_env_credential_path "p" = none ∧
    List.lookup "p" Fixtures.authSt.disk = some Fixtures.credW ∧
    Auth.ensure_proxy_metadata Fixtures.credW = Fixtures.credW ∧
    Fixtures.credW.loaded_from_env = false ∧
    ((false = false →
      (Auth.refresh_token Fixtures.authSt 100 "p" true (.success Fixtures.tok0) false).2 =
        .error .ioError ∧
      List.lookup "p" (Auth.refresh_token Fixtures.authSt 100 "p" true
        (.success Fixtures.tok0) false).1.cache = List.lookup "p" Fixtures.authSt.cache ∧
      (Auth.refresh_token Fixtures.authSt 100 "p" true
        (.success Fixtures.tok0) false).1.disk = Fixtures.authSt.disk) ∧
    (false = true →
      ∃ u, (Auth.refresh_token Fixtures.authSt 100 "p" true
          (.success Fixtures.tok0) false).2 = .ok u ∧
        List.lookup "p" (Auth.refresh_token Fixtures.authSt 100 "p" true
          (.success Fixtures.tok0) false).1.disk = some u ∧
        List.lookup "p" (Auth.refresh_token Fixtures.authSt 100 "p" true
          (.success Fixtures.tok0) false).1.cache = some u)) :=
  ⟨by decide, rfl, by decide, rfl,
   c5_refresh_persists_before_cache Fixtures.authSt 100 "p" true false Fixtures.credW
     Fixtures.tok0 "new" 3600 (by decide) rfl (by decide) rfl rfl (by decide)
     (Or.inl rfl) rfl (by decide) rfl (fun r h => by cases h; decide)⟩

/-- Helper: one window survives a serialise/parse round trip. -/
theorem window_roundtrip (w : Usage.WindowStats) :
    Usage.parse_window_stats w.name (Usage.serialize_window_stats w) = w := by
  cases w
  rfl

/-- Helper: a well-named window map (each window named after its key, no
legacy `"total"` key) survives the round trip. -/
theorem windows_roundtrip (ws : List (String × Usage.WindowStats))
    (h : ∀ kw ∈ ws, kw.2.name = kw.1 ∧ kw.1 ≠ "total") :
    ((ws.map (fun kw => (kw.1, Usage.serialize_window_stats kw.2))).filter
        (fun kw => kw.1 ≠ "total")).map
      (fun kw => (kw.1, Usage.parse_window_stats kw.1 kw.2)) = ws := by
  induction ws with
  | nil => rfl
  | cons hd tl ih =>
    obtain ⟨k, w⟩ := hd
    obtain ⟨hname, hnt⟩ := h (k, w) (List.mem_cons_self _ _)
    simp only [List.map_cons, List.filter_cons]
    rw [if_pos (by simpa using hnt)]
    simp only [List.map_cons, List.cons.injEq]
    refine ⟨?_, ih (fun kw hkw => h kw (List.mem_cons_of_mem _ hkw))⟩
    have hname' : w.name = k := hname
    have : Usage.parse_window_stats k (Usage.serialize_window_stats w) = w := by
      rw [← hname']
      exact window_roundtrip w
    rw [this]

/-- Helper: `ModelStats` round trip. -/
theorem model_stats_roundtrip (ms : Usage.ModelStats)
    (h : ∀ kw ∈ ms.windows, kw.2.name = kw.1 ∧ kw.1 ≠ "total") :
    Usage.parse_model_stats (Usage.serialize_model_stats ms) = ms := by
  cases ms with
  | mk ws tot =>
    simp only [Usage.serialize_model_stats, Usage.parse_model_stats,
      Usage.serialize_total_stats, Usage.parse_total_stats]
    rw [windows_roundtrip ws h]

/-- Helper: `GroupStats` round trip. -/
theorem group_stats_roundtrip (gs : Usage.GroupStats)
    (h : ∀ kw ∈ gs.windows, kw.2.name = kw.1 ∧ kw.1 ≠ "total") :
    Usage.parse_group_stats (Usage.serialize_group_stats gs) = gs := by
  cases gs with
  | mk ws tot =>
    simp only [Usage.serialize_group_stats, Usage.parse_group_stats,
      Usage.serialize_total_stats, Usage.parse_total_stats]
    rw [windows_roundtrip ws h]

/-- Helper: the per-model usage map round trip. -/
theorem model_usage_roundtrip (l : List (String × Usage.ModelStats))
    (h : ∀ km ∈ l, ∀ kw ∈ km.2.windows, kw.2.name = kw.1 ∧ kw.1 ≠ "total") :
    (l.map (fun km => (km.1, Usage.serialize_model_stats km.2))).map
      (fun km => (km.1, Usage.parse_model_stats km.2)) = l := by
  induction l with
  | nil => rfl
  | cons hd tl ih =>
    simp only [List.map_cons, List.cons.injEq]
    refine ⟨?_, ih (fun km hkm => h km (List.mem_cons_of_mem _ hkm))⟩
    rw [model_stats_roundtrip hd.2 (h hd (List.mem_cons_self _ _))]

/-- Helper: the per-group usage map round trip. -/
theorem group_usage_roundtrip (l : List (String × Usage.GroupStats))
    (h : ∀ kg ∈ l, ∀ kw ∈ kg.2.windows, kw.2.name = kw.1 ∧ kw.1 ≠ "total") :
    (l.map (fun kg => (kg.1, Usage.serialize_group_stats kg.2))).map
      (fun kg => (kg.1, Usage.parse_group_stats kg.2)) = l := by
  induction l with
  | nil => rfl
  | cons hd tl ih =>
    simp only [List.map_cons, List.cons.injEq]
    refine ⟨?_, ih (fun kg hkg => h kg (List.mem_cons_of_mem _ hkg))⟩
    rw [group_stats_roundtrip hd.2 (h hd (List.mem_cons_self _ _))]

/-- Helper: the fair-cycle map round trip (each entry's `model_or_group`
is its key, which the parser reconstructs). -/
theorem fair_cycle_roundtrip (l : List (String × Usage.FairCycleState))
    (h : ∀ kf ∈ l, kf.2.model_or_group = kf.1) :
    ((l.map (fun kf => (kf.1,
        ({ exhausted := kf.2.exhausted, exhausted_at := kf.2.exhausted_at,
           exhausted_reason := kf.2.exhausted_reason,
           cycle_request_count := kf.2.cycle_request_count } : Usage.StoredFairCycle)))).map
      (fun kf => (kf.1,
        ({ exhausted := kf.2.exhausted, exhausted_at := kf.2.exhausted_at,
           exhausted_reason := kf.2.exhausted_reason,
           cycle_request_count := kf.2.cycle_request_count,
           model_or_group := kf.1 } : Usage.FairCycleState)))) = l := by
  induction l with
  | nil => rfl
  | cons hd tl ih =>
    obtain ⟨k, fc⟩ := hd
    have hk := h (k, fc) (List.mem_cons_self _ _)
    simp only [List.map_cons, List.cons.injEq]
    refine ⟨?_, ih (fun kf hkf => h kf (List.mem_cons_of_mem _ hkf))⟩
    cases fc
    simp only at hk
    simp [hk]

/-- C8 — serialising a credential state to the usage store and parsing it
back yields the same state, except that `active_requests` is reset to 0 and
cooldowns whose `until` has passed at save time are dropped (windows come
back unchanged, so any comparison after rolling windows with elapsed
`reset_at` is also equal). Hypotheses: windows are keyed by their own name
and none uses the legacy reserved name `"total"`, and each fair-cycle entry
records its own key as scope. -/
theorem c8_usage_roundtrip (now : Int) (s : Usage.CredentialState)
    (hW : ∀ km ∈ s.model_usage, ∀ kw ∈ km.2.windows, kw.2.name = kw.1 ∧ kw.1 ≠ "total")
    (hG : ∀ kg ∈ s.group_usage, ∀ kw ∈ kg.2.windows, kw.2.name = kw.1 ∧ kw.1 ≠ "total")
    (hF : ∀ kf ∈ s.fair_cycle, kf.2.model_or_group = kf.1) :
    Usage.parse_credential_state s.stable_id (Usage.serialize_credential_state now s) =
      some { s with
        active_requests := 0
        cooldowns := s.cooldowns.filter (fun kc => kc.2.until_ > now) } := by
  unfold Usage.parse_credential_state Usage.serialize_credential_state
  simp only [Usage.serialize_total_stats, Usage.parse_total_stats, Option.some.injEq]
  cases s with
  | mk sid prov acc dn tier pri mu gu tot cds fc ar mc ca lu =>
    simp only at hW hG hF ⊢
    rw [model_usage_roundtrip mu hW, group_usage_roundtrip gu hG, fair_cycle_roundtrip fc hF]

/-- C8 witness: the round-trip theorem applied to a concrete credential
state at save time 100 (the expired cooldown is dropped, `active_requests`
resets to 0, everything else survives). -/
theorem c8_usage_roundtrip_witness :
    (∀ km ∈ Fixtures.credState.model_usage, ∀ kw ∈ km.2.windows,
      kw.2.name = kw.1 ∧ kw.1 ≠ "total") ∧
    (∀ kf ∈ Fixtures.credState.fair_cycle, kf.2.model_or_group = kf.1) ∧
    Usage.parse_credential_state Fixtures.credState.stable_id
        (Usage.serialize_credential_state 100 Fixtures.credState) =
      some { Fixtures.credState with
        active_requests := 0
        cooldowns := Fixtures.credState.cooldowns.filter (fun kc => kc.2.until_ > 100) } :=
  ⟨by decide, by decide,
   c8_usage_roundtrip 100 Fixtures.credState (by decide) (by decide) (by decide)⟩

/-- Helper: a successful leading-sequence match accounts for the length. -/
theorem dropLeading_length (p : List Char) :
    ∀ l r, Creds.dropLeading p l = some r → l.length = p.length + r.length := by
  induction p with
  | nil =>
    intro l r h
    simp [Creds.dropLeading] at h
    subst h
    simp
  | cons c cs ih =>
    intro l r h
    cases l with
    | nil => simp [Creds.dropLeading] at h
    | cons x xs =>
      unfold Creds.dropLeading at h
      by_cases hx : x = c
      · rw [if_pos hx] at h
        have := ih xs r h
        simp only [List.length_cons]
        omega
      · rw [if_neg hx] at h
        cases h

/-- Helper: dropping a shared leading sequence. -/
theorem dropLeading_append (a : List Char) :
    ∀ b l, Creds.dropLeading (a ++ b) (a ++ l) = Creds.dropLeading b l := by
  induction a with
  | nil => intro b l; rfl
  | cons c cs ih =>
    intro b l
    simp only [List.cons_append, Creds.dropLeading, if_true]
    exact ih b l

/-- Helper: dropping a full leading copy. -/
theorem dropLeading_self_append (p rest : List Char) :
    Creds.dropLeading p (p ++ rest) = some rest := by
  have := dropLeading_append p [] rest
  simpa using this

/-- Helper: the legacy `<pfx>_ACCESS_TOKEN` key never matches the numbered
pattern. -/
theorem match_legacy_access_none (pfx : String) :
    Creds.match_numbered_access_key pfx (pfx ++ "_ACCESS_TOKEN") = none := by
  unfold Creds.match_numbered_access_key
  rw [String.data_append]
  rw [show pfx.data ++ "_ACCESS_TOKEN".data = (pfx.data ++ ['_']) ++ "ACCESS_TOKEN".data by simp]
  rw [dropLeading_self_append]
  have hdt : Creds.dropTrailing "_ACCESS_TOKEN".data "ACCESS_TOKEN".data = none := by decide
  simp [hdt]

/-- Helper: the legacy `<pfx>_REFRESH_TOKEN` key never matches the numbered
pattern. -/
theorem match_legacy_refresh_none (pfx : String) :
    Creds.match_numbered_access_key pfx (pfx ++ "_REFRESH_TOKEN") = none := by
  unfold Creds.match_numbered_access_key
  rw [String.data_append]
  rw [show pfx.data ++ "_REFRESH_TOKEN".data =
    (pfx.data ++ ['_']) ++ "REFRESH_TOKEN".data by simp]
  rw [dropLeading_self_append]
  have hdt : Creds.dropTrailing "_ACCESS_TOKEN".data "REFRESH_TOKEN".data = none := by decide
  simp [hdt]

/-- Helper: a matched numbered index is a non-empty digit string. -/
theorem match_numbered_digits {pfx key idx : String}
    (h : Creds.match_numbered_access_key pfx key = some idx) : idx.data ≠ [] := by
  unfold Creds.match_numbered_access_key at h
  split at h
  · split at h
    · split at h
      · rename_i hcond
        cases h
        exact hcond.1
      · cases h
    · cases h
  · cases h

/-- Helper: a numbered refresh key never collides with the legacy keys. -/
theorem numbered_refresh_key_ne_legacy (pfx idx : String) (hidx : idx.data ≠ []) :
    pfx ++ "_" ++ idx ++ "_REFRESH_TOKEN" ≠ pfx ++ "_ACCESS_TOKEN" ∧
    pfx ++ "_" ++ idx ++ "_REFRESH_TOKEN" ≠ pfx ++ "_REFRESH_TOKEN" := by
  have hlen : 1 ≤ idx.length := by
    cases idx with
    | mk d =>
      have h0 : d.length ≠ 0 := fun h => hidx (List.length_eq_zero.mp h)
      have h1 : 0 < d.length := Nat.pos_of_ne_zero h0
      simpa using h1
  have h_1 : ("_" : String).length = 1 := rfl
  have h13 : ("_ACCESS_TOKEN" : String).length = 13 := rfl
  have h14 : ("_REFRESH_TOKEN" : String).length = 14 := rfl
  constructor
  · intro h
    have hL := congrArg String.length h
    simp only [String.length_append, h_1, h13, h14] at hL
    omega
  · intro h
    have hL := congrArg String.length h
    simp only [String.length_append, h_1, h13, h14] at hL
    omega

/-- Helper: filtering out two unrelated keys does not change a lookup. -/
theorem lookup_filter_two {α : Type} (l : List (String × α)) (k a b : String)
    (hka : k ≠ a) (hkb : k ≠ b) :
    List.lookup k (l.filter (fun kv => kv.1 ≠ a ∧ kv.1 ≠ b)) = List.lookup k l := by
  induction l with
  | nil => rfl
  | cons hd tl ih =>
    obtain ⟨k1, v1⟩ := hd
    simp only [List.filter_cons]
    by_cases h1 : k1 = k
    · subst h1
      rw [if_pos (by simpa using And.intro hka hkb)]
      simp [List.lookup]
    · have hbeq : (k == k1) = false := beq_false_of_ne (fun hh => h1 hh.symm)
      by_cases hp : ((k1, v1).1 ≠ a ∧ (k1, v1).1 ≠ b)
      · rw [if_pos (by simpa using hp)]
        simp only [List.lookup, hbeq]
        exact ih
      · rw [if_neg (by simpa using hp)]
        rw [ih]
        simp [List.lookup, hbeq]

/-- Helper: the numbered scan's step consults only numbered keys, so it is
unchanged when the legacy keys are removed from the lookup environment. -/
theorem numbered_step_env_invariant (env : List (String × String)) (pfx : String)
    (acc : List String) (kv : String × String) :
    Creds.numbered_step (env.filter (fun p =>
      p.1 ≠ pfx ++ "_ACCESS_TOKEN" ∧ p.1 ≠ pfx ++ "_REFRESH_TOKEN")) pfx acc kv =
    Creds.numbered_step env pfx acc kv := by
  unfold Creds.numbered_step
  rcases hm : Creds.match_numbered_access_key pfx kv.1 with _ | idx
  · simp only [hm]
  · simp only [hm]
    have hd := match_numbered_digits hm
    have hne := numbered_refresh_key_ne_legacy pfx idx hd
    rw [lookup_filter_two env (pfx ++ "_" ++ idx ++ "_REFRESH_TOKEN") _ _ hne.1 hne.2]

/-- Helper: legacy keys are no-ops for the numbered scan's fold. -/
theorem numbered_foldl_filter (env2 : List (String × String)) (pfx : String) :
    ∀ (l : List (String × String)) (acc : List String),
      ((l.filter (fun p => p.1 ≠ pfx ++ "_ACCESS_TOKEN" ∧
        p.1 ≠ pfx ++ "_REFRESH_TOKEN")).foldl (Creds.numbered_step env2 pfx) acc) =
      l.foldl (Creds.numbered_step env2 pfx) acc := by
  intro l
  induction l with
  | nil => intro acc; rfl
  | cons kv tl ih =>
    intro acc
    simp only [List.filter_cons]
    by_cases hp : (kv.1 ≠ pfx ++ "_ACCESS_TOKEN" ∧ kv.1 ≠ pfx ++ "_REFRESH_TOKEN")
    · rw [if_pos (by simpa using hp)]
      simp only [List.foldl_cons]
      exact ih _
    · rw [if_neg (by simpa using hp)]
      simp only [List.foldl_cons]
      have hstep : Creds.numbered_step env2 pfx acc kv = acc := by
        unfold Creds.numbered_step
        rcases not_and_or.mp hp with h | h
        · rw [not_ne_iff.mp h, match_legacy_access_none]
        · rw [not_ne_iff.mp h, match_legacy_refresh_none]
      rw [hstep]
      exact ih acc

/-- Helper: removing the legacy env keys leaves the numbered scan result
unchanged. -/
theorem numbered_indices_filter_eq (env : List (String × String)) (pfx : String) :
    Creds.numbered_indices (env.filter (fun p =>
      p.1 ≠ pfx ++ "_ACCESS_TOKEN" ∧ p.1 ≠ pfx ++ "_REFRESH_TOKEN")) pfx =
    Creds.numbered_indices env pfx := by
  unfold Creds.numbered_indices
  have h1 : ∀ (l : List (String × String)) (acc : List String),
      l.foldl (Creds.numbered_step (env.filter (fun p =>
        p.1 ≠ pfx ++ "_ACCESS_TOKEN" ∧ p.1 ≠ pfx ++ "_REFRESH_TOKEN")) pfx) acc =
      l.foldl (Creds.numbered_step env pfx) acc := by
    intro l
    induction l with
    | nil => intro acc; rfl
    | cons kv tl ih =>
      intro acc
      simp only [List.foldl_cons, numbered_step_env_invariant]
      exact ih _
  rw [h1, numbered_foldl_filter]

/-- C9 — when at least one numbered environment credential pair is present,
discovery yields exactly the numbered credentials: the result is unchanged
if the legacy `<pfx>_ACCESS_TOKEN`/`<pfx>_REFRESH_TOKEN` pair is removed
from the environment, and every produced virtual path comes from a numbered
index; the legacy pair is used (as index 0) only when no numbered pair
exists. -/
theorem c9_numbered_env_shadows_legacy
    (env : List (String × String)) (provider pfx : String)
    (hn : Creds.numbered_indices env pfx ≠ []) :
    Creds.provider_paths env provider pfx =
      Creds.provider_paths (env.filter (fun p =>
        p.1 ≠ pfx ++ "_ACCESS_TOKEN" ∧ p.1 ≠ pfx ++ "_REFRESH_TOKEN")) provider pfx ∧
    (∀ p ∈ Creds.provider_paths env provider pfx, ∃ idx,
      idx ∈ Creds.numbered_indices env pfx ∧ p = "env://" ++ provider ++ "/" ++ idx) ∧
    (∀ env2, Creds.numbered_indices env2 pfx = [] →
      Creds.legacy_pair_present env2 pfx = true →
      Creds.provider_paths env2 provider pfx = ["env://" ++ provider ++ "/" ++ "0"]) := by
  have hnem : (Creds.numbered_indices env pfx).isEmpty = false := by
    cases h : Creds.numbered_indices env pfx with
    | nil => exact absurd h hn
    | cons a l => rfl
  refine ⟨?_, ?_, ?_⟩
  · unfold Creds.provider_paths Creds.discover_indices
    rw [numbered_indices_filter_eq]
    simp only [hnem, Bool.false_eq_true, reduceIte]
  · intro p hp
    unfold Creds.provider_paths Creds.discover_indices at hp
    have hne : (Creds.numbered_indices env pfx).isEmpty = false := by
      cases h : Creds.numbered_indices env pfx with
      | nil => exact absurd h hn
      | cons a l => rfl
    simp only [hne, Bool.false_eq_true, reduceIte] at hp
    obtain ⟨idx, hidx, rfl⟩ := List.mem_map.mp hp
    have hmem : idx ∈ Creds.numbered_indices env pfx :=
      ((List.perm_insertionSort _ _).mem_iff).mp hidx
    exact ⟨idx, hmem, rfl⟩
  · intro env2 h0 hleg
    unfold Creds.provider_paths Creds.discover_indices
    rw [h0]
    simp [hleg, Creds.sortNumeric]

/-- C9 witness: a concrete environment with numbered indices 2 and 10 plus
a legacy pair; discovery returns the numbered paths only. -/
theorem c9_numbered_env_shadows_legacy_witness :
    Creds.numbered_indices
        [("OPENAI_CODEX_2_ACCESS_TOKEN", "a2"), ("OPENAI_CODEX_2_REFRESH_TOKEN", "r2"),
         ("OPENAI_CODEX_ACCESS_TOKEN", "la"), ("OPENAI_CODEX_REFRESH_TOKEN", "lr"),
         ("OPENAI_CODEX_10_ACCESS_TOKEN", "a10"), ("OPENAI_CODEX_10_REFRESH_TOKEN", "r10")]
        "OPENAI_CODEX" ≠ [] ∧
    (Creds.provider_paths
        [("OPENAI_CODEX_2_ACCESS_TOKEN", "a2"), ("OPENAI_CODEX_2_REFRESH_TOKEN", "r2"),
         ("OPENAI_CODEX_ACCESS_TOKEN", "la"), ("OPENAI_CODEX_REFRESH_TOKEN", "lr"),
         ("OPENAI_CODEX_10_ACCESS_TOKEN", "a10"), ("OPENAI_CODEX_10_REFRESH_TOKEN", "r10")]
        "openai_codex" "OPENAI_CODEX" =
      Creds.provider_paths
        ([("OPENAI_CODEX_2_ACCESS_TOKEN", "a2"), ("OPENAI_CODEX_2_REFRESH_TOKEN", "r2"),
          ("OPENAI_CODEX_ACCESS_TOKEN", "la"), ("OPENAI_CODEX_REFRESH_TOKEN", "lr"),
          ("OPENAI_CODEX_10_ACCESS_TOKEN", "a10"),
          ("OPENAI_CODEX_10_REFRESH_TOKEN", "r10")].filter (fun p =>
            p.1 ≠ "OPENAI_CODEX" ++ "_ACCESS_TOKEN" ∧
            p.1 ≠ "OPENAI_CODEX" ++ "_REFRESH_TOKEN"))
        "openai_codex" "OPENAI_CODEX") ∧
    (∀ p ∈ Creds.provider_paths
        [("OPENAI_CODEX_2_ACCESS_TOKEN", "a2"), ("OPENAI_CODEX_2_REFRESH_TOKEN", "r2"),
         ("OPENAI_CODEX_ACCESS_TOKEN", "la"), ("OPENAI_CODEX_REFRESH_TOKEN", "lr"),
         ("OPENAI_CODEX_10_ACCESS_TOKEN", "a10"), ("OPENAI_CODEX_10_REFRESH_TOKEN", "r10")]
        "openai_codex" "OPENAI_CODEX", ∃ idx,
      idx ∈ Creds.numbered_indices
        [("OPENAI_CODEX_2_ACCESS_TOKEN", "a2"), ("OPENAI_CODEX_2_REFRESH_TOKEN", "r2"),
         ("OPENAI_CODEX_ACCESS_TOKEN", "la"), ("OPENAI_CODEX_REFRESH_TOKEN", "lr"),
         ("OPENAI_CODEX_10_ACCESS_TOKEN", "a10"), ("OPENAI_CODEX_10_REFRESH_TOKEN", "r10")]
        "OPENAI_CODEX" ∧
      p = "env://" ++ "openai_codex" ++ "/" ++ idx) :=
  have h := c9_numbered_env_shadows_legacy
    [("OPENAI_CODEX_2_ACCESS_TOKEN", "a2"), ("OPENAI_CODEX_2_REFRESH_TOKEN", "r2"),
     ("OPENAI_CODEX_ACCESS_TOKEN", "la"), ("OPENAI_CODEX_REFRESH_TOKEN", "lr"),
     ("OPENAI_CODEX_10_ACCESS_TOKEN", "a10"), ("OPENAI_CODEX_10_REFRESH_TOKEN", "r10")]
    "openai_codex" "OPENAI_CODEX" (by decide)
  ⟨by decide, h.1, h.2.1⟩

/-- Helper: the tool-call insert-or-update step never empties the map. -/
theorem aggToolCallStep_ne_nil (m : List (Nat × Codex.AggToolCall)) (tc : Codex.ToolCallDelta) :
    Codex.aggToolCallStep m tc ≠ [] := by
  unfold Codex.aggToolCallStep
  by_cases h : m.any (fun kv => kv.1 = tc.index) = true
  · simp only [h, reduceIte]
    intro hmap
    rw [List.map_eq_nil] at hmap
    subst hmap
    simp at h
  · simp only [h, Bool.false_eq_true, reduceIte]
    intro hmap
    rw [List.map_eq_nil] at hmap
    simp at hmap

/-- Helper: the reassembly fold never empties the tool-call map, and a
tool-call chunk makes it non-empty. -/
theorem reassemblyStep_agg (acc : Codex.ReassemblyAcc) (ck : Codex.Chunk) :
    (acc.agg ≠ [] → (Codex.reassemblyStep acc ck).agg ≠ []) ∧
    (∀ tc, ck.delta = Codex.Delta.toolCalls tc → (Codex.reassemblyStep acc ck).agg ≠ []) := by
  unfold Codex.reassemblyStep
  rcases hd : ck.delta with _ | text | tc
  · constructor
    · intro h
      rcases hf : ck.finish_reason with _ | f
      · simpa using h
      · by_cases hfe : f ≠ "" <;> simp [hfe, h]
    · intro tc htc
      cases htc
  · constructor
    · intro h
      rcases hf : ck.finish_reason with _ | f
      · simpa using h
      · by_cases hfe : f ≠ "" <;> simp [hfe, h]
    · intro tc htc
      cases htc
  · constructor
    · intro h
      rcases hf : ck.finish_reason with _ | f
      · simpa using aggToolCallStep_ne_nil acc.agg tc
      · by_cases hfe : f ≠ "" <;> simp [hfe, aggToolCallStep_ne_nil acc.agg tc]
    · intro tc' htc
      rcases hf : ck.finish_reason with _ | f
      · simpa using aggToolCallStep_ne_nil acc.agg tc
      · by_cases hfe : f ≠ "" <;> simp [hfe, aggToolCallStep_ne_nil acc.agg tc]

/-- Helper: the reassembly fold yields a non-empty tool-call map when some
chunk carried a tool-call delta (or the accumulator already had one). -/
theorem foldl_reassembly_agg :
    ∀ (l : List Codex.Chunk) (acc : Codex.ReassemblyAcc),
      ((∃ ck ∈ l, ∃ tc, ck.delta = Codex.Delta.toolCalls tc) ∨ acc.agg ≠ []) →
      (l.foldl Codex.reassemblyStep acc).agg ≠ [] := by
  intro l
  induction l with
  | nil =>
    intro acc h
    rcases h with ⟨ck, hmem, _⟩ | h
    · simp at hmem
    · simpa using h
  | cons hd tl ih =>
    intro acc h
    simp only [List.foldl_cons]
    rcases h with ⟨ck, hmem, tc, htc⟩ | h
    · rcases List.mem_cons.mp hmem with rfl | hmem'
      · exact ih _ (Or.inr ((reassemblyStep_agg acc ck).2 tc htc))
      · exact ih _ (Or.inl ⟨ck, hmem', tc, htc⟩)
    · exact ih _ (Or.inr ((reassemblyStep_agg acc hd).1 h))

/-- Helper: an option-valued fold from `none` stays `none`. -/
theorem optionFoldlNone {α β : Type} (f : α → β → Option α) (l : List β) :
    l.foldl (fun a c => Bind.bind a (fun x => f x c)) none = none := by
  induction l with
  | nil => rfl
  | cons c cs ih => simpa using ih

/-- Helper: invariant propagation through a successful option-valued fold,
with a seeding element: the invariant holds at the end if some element of
the list seeds it (or it held initially). -/
theorem optionFoldlSeed {α β : Type} (f : α → β → Option α) (P : α → Prop) (T : β → Prop)
    (hpres : ∀ a c a', f a c = some a' → P a → P a')
    (hseed : ∀ a c a', f a c = some a' → T c → P a') :
    ∀ (l : List β) (a0 aF : α),
      l.foldl (fun a c => Bind.bind a (fun x => f x c)) (some a0) = some aF →
      ((∃ c ∈ l, T c) ∨ P a0) → P aF := by
  intro l
  induction l with
  | nil =>
    intro a0 aF h hp
    rcases hp with ⟨c, hmem, _⟩ | hp
    · simp at hmem
    · cases h
      exact hp
  | cons c cs ih =>
    intro a0 aF h hp
    simp only [List.foldl_cons] at h
    have hbind : (Bind.bind (some a0) (fun x => f x c)) = f a0 c := rfl
    rw [hbind] at h
    rcases h1 : f a0 c with _ | a1
    · rw [h1, optionFoldlNone] at h
      cases h
    · rw [h1] at h
      rcases hp with ⟨c', hmem, ht⟩ | hp
      · rcases List.mem_cons.mp hmem with rfl | hmem'
        · exact ih a1 aF h (Or.inr (hseed a0 c' a1 h1 ht))
        · exact ih a1 aF h (Or.inl ⟨c', hmem', ht⟩)
      · exact ih a1 aF h (Or.inr (hpres a0 c a1 h1 hp))

/-- Helper: a lookup hit means the key is present. -/
theorem lookup_any {α : Type} {l : List (String × α)} {k : String} {v : α}
    (h : List.lookup k l = some v) : l.any (fun kv => kv.1 = k) = true := by
  induction l with
  | nil => cases h
  | cons hd tl ih =>
    obtain ⟨k1, v1⟩ := hd
    by_cases hk : k = k1
    · subst hk
      simp
    · have hbeq : (k == k1) = false := beq_false_of_ne hk
      simp only [List.lookup, hbeq] at h
      simpa [hk] using Or.inr (ih h)

/-- Helper: a lookup hit is a member. -/
theorem lookup_mem {α : Type} {l : List (String × α)} {k : String} {v : α}
    (h : List.lookup k l = some v) : (k, v) ∈ l := by
  induction l with
  | nil => cases h
  | cons hd tl ih =>
    obtain ⟨k1, v1⟩ := hd
    by_cases hk : k = k1
    · subst hk
      simp only [List.lookup, beq_self_eq_true] at h
      cases h
      exact List.mem_cons_self _ _
    · have hbeq : (k == k1) = false := beq_false_of_ne hk
      simp only [List.lookup, hbeq] at h
      exact List.mem_cons_of_mem _ (ih h)

/-- Helper: a successful rebuild of a non-empty entry map is non-empty. -/
theorem aggEntryUpdate_foldr_ne_nil (index : Codex.JVal)
    (upd : ProxyApp.AggEntry → Option ProxyApp.AggEntry) :
    ∀ (l : ProxyApp.AggMap) (out : ProxyApp.AggMap), l ≠ [] →
      l.foldr (ProxyApp.aggEntryUpdate index upd) (some []) = some out → out ≠ [] := by
  intro l out hl h
  cases l with
  | nil => exact absurd rfl hl
  | cons x xs =>
    simp only [List.foldr_cons] at h
    rcases hrest : xs.foldr (ProxyApp.aggEntryUpdate index upd) (some []) with _ | acc
    · rw [hrest] at h
      unfold ProxyApp.aggEntryUpdate at h
      simp only [Option.bind_eq_bind, Option.none_bind] at h
      cases h
    · rw [hrest] at h
      unfold ProxyApp.aggEntryUpdate at h
      simp only [Option.bind_eq_bind, Option.some_bind] at h
      by_cases hx : Codex.jeq x.1 index = true
      · rw [if_pos hx] at h
        rcases hupd : upd x.2 with _ | e
        · rw [hupd] at h
          cases h
        · rw [hupd] at h
          simp only [Option.some_bind] at h
          cases h
          simp
      · rw [if_neg hx] at h
        cases h
        simp

/-- Helper: a successful `tool_calls` entry step yields a non-empty map. -/
theorem aggEntryStep_some_ne_nil {agg agg' : ProxyApp.AggMap} {tc : Codex.JVal}
    (h : ProxyApp.aggEntryStep agg tc = some agg') : agg' ≠ [] := by
  rcases tc with _ | b | n | s | xs | tcf
  iterate 5 (simp only [ProxyApp.aggEntryStep] at h; cases h)
  simp only [ProxyApp.aggEntryStep] at h
  rcases hidx : List.lookup "index" tcf with _ | index
  · simp only [hidx] at h
    cases h
  · simp only [hidx] at h
    set agg1 := if agg.any (fun kv => Codex.jeq kv.1 index) = true then agg
      else agg ++ [(index, { id := none, name := "", arguments := "" })] with hagg1
    have hagg1ne : agg1 ≠ [] := by
      rw [hagg1]
      by_cases hany : agg.any (fun kv => Codex.jeq kv.1 index) = true
      · rw [if_pos hany]
        intro hnil
        subst hnil
        simp at hany
      · rw [if_neg hany]
        simp
    rcases hfn : List.lookup "function" tcf with _ | fv
    · simp only [hfn, Option.some.injEq] at h
      subst h
      intro hnil
      rw [List.map_eq_nil_iff] at hnil
      exact hagg1ne hnil
    · rcases fv with _ | b2 | n2 | s2 | xs2 | fvf
      · simp only [hfn, ProxyApp.pyIn] at h
        cases h
      · simp only [hfn, ProxyApp.pyIn] at h
        cases h
      · simp only [hfn, ProxyApp.pyIn] at h
        cases h
      · simp only [hfn, ProxyApp.pyIn] at h
        by_cases h1 : PyStr.strContains s2 "name" = true
        · simp only [h1] at h
          cases h
        · simp only [h1] at h
          by_cases h2 : PyStr.strContains s2 "arguments" = true
          · simp only [h2] at h
            cases h
          · simp only [h2, Option.some.injEq] at h
            subst h
            intro hnil
            rw [List.map_eq_nil_iff] at hnil
            exact hagg1ne hnil
      · simp only [hfn, ProxyApp.pyIn] at h
        by_cases h1 : (xs2.any fun v => Codex.jeq v (.str "name")) = true
        · simp only [h1] at h
          cases h
        · simp only [h1] at h
          by_cases h2 : (xs2.any fun v => Codex.jeq v (.str "arguments")) = true
          · simp only [h2] at h
            cases h
          · simp only [h2, Option.some.injEq] at h
            subst h
            intro hnil
            rw [List.map_eq_nil_iff] at hnil
            exact hagg1ne hnil
      · simp only [hfn] at h
        exact aggEntryUpdate_foldr_ne_nil index _ agg1 agg' hagg1ne h

/-- Helper: a delta item never empties the tool-call map, and a non-empty
`tool_calls` item makes it non-empty. -/
theorem applyDeltaItem_agg (a : ProxyApp.AggAcc) (kv : String × Codex.JVal)
    (a' : ProxyApp.AggAcc) (h : ProxyApp.applyDeltaItem a kv = some a') :
    (a.agg ≠ [] → a'.agg ≠ []) ∧
    (∀ hd tl, kv.1 = "tool_calls" → kv.2 = Codex.JVal.arr (hd :: tl) → a'.agg ≠ []) := by
  obtain ⟨key, value⟩ := kv
  unfold ProxyApp.applyDeltaItem at h
  simp only at h ⊢
  by_cases hnull : Codex.jeq value .null = true
  · rw [if_pos hnull] at h
    cases h
    refine ⟨fun hne => hne, ?_⟩
    intro hd tl hk hv
    subst hv
    simp [Codex.jeq] at hnull
  · rw [if_neg hnull] at h
    by_cases hck : key = "content"
    · rw [if_pos hck] at h
      have hmsg : ∀ m : Codex.JObj, ({ a with message := m } : ProxyApp.AggAcc).agg = a.agg :=
        fun _ => rfl
      refine ⟨?_, ?_⟩
      · intro hne
        by_cases ht : Codex.pyTruthy value = true
        · rw [if_pos ht] at h
          split at h
          · cases h
            simpa using hne
          · cases h
        · rw [if_neg ht] at h
          cases h
          simpa using hne
      · intro hd tl hk hv
        exact absurd (hck.symm.trans hk) (by decide)
    · rw [if_neg hck] at h
      by_cases htc : key = "tool_calls"
      · rw [if_pos htc] at h
        rcases hv : value with _ | b | n | s | tcs | o
        iterate 4 (rw [hv] at h; cases h)
        · rw [hv] at h
          rw [Option.map_eq_some'] at h
          obtain ⟨aggF, hfold, ha'⟩ := h
          subst ha'
          have hnonempty : tcs ≠ [] → aggF ≠ [] := by
            intro htcs
            cases tcs with
            | nil => exact absurd rfl htcs
            | cons hd tl =>
              exact optionFoldlSeed ProxyApp.aggEntryStep (fun g => g ≠ []) (fun _ => True)
                (fun _ _ _ hs _ => aggEntryStep_some_ne_nil hs)
                (fun _ _ _ hs _ => aggEntryStep_some_ne_nil hs)
                (hd :: tl) a.agg aggF hfold (Or.inl ⟨hd, List.mem_cons_self _ _, trivial⟩)
          refine ⟨?_, ?_⟩
          · intro hne
            cases tcs with
            | nil =>
              cases hfold
              simpa using hne
            | cons hd tl => simpa using hnonempty (by simp)
          · intro hd tl hk hv2
            cases hv2
            simpa using hnonempty (by simp)
        · rw [hv] at h
          cases h
      · rw [if_neg htc] at h
        have hseedv : ∀ hd tl, key = "tool_calls" → value = Codex.JVal.arr (hd :: tl) →
            a'.agg ≠ [] := by
          intro hd tl hk _
          exact absurd hk htc
        refine ⟨?_, hseedv⟩
        intro hne
        by_cases hfc : key = "function_call"
        · rw [if_pos hfc] at h
          split at h
          · rcases hn : ProxyApp.concatField _ "name" _ with _ | nm
            · rw [hn] at h
              simp only [Option.bind_eq_bind, Option.none_bind] at h
              cases h
            · rw [hn] at h
              simp only [Option.bind_eq_bind, Option.some_bind] at h
              rcases hg : ProxyApp.concatField _ "arguments" _ with _ | ag
              · rw [hg] at h
                simp only [Option.none_bind] at h
                cases h
              · rw [hg] at h
                simp only [Option.some_bind] at h
                cases h
                simpa using hne
          · cases h
        · rw [if_neg hfc] at h
          by_cases hrole : key = "role"
          · rw [if_pos hrole] at h
            cases h
            simpa using hne
          · rw [if_neg hrole] at h
            by_cases hmem : (a.message.any (fun p => p.1 = key)) = true
            · simp only [hmem, Bool.not_true, Bool.false_eq_true, reduceIte] at h
              split at h
              · split at h
                · cases h
                  simpa using hne
                · cases h
              · cases h
                simpa using hne
            · simp only [hmem, Bool.not_false, reduceIte] at h
              cases h
              simpa using hne

/-- Helper: inversion of a successful option bind. -/
theorem bindEqSome {α β : Type} {x : Option α} {f : α → Option β} {b : β}
    (h : Bind.bind x f = some b) : ∃ a, x = some a ∧ f a = some b := by
  cases x with
  | none => cases h
  | some a => exact ⟨a, rfl, h⟩

/-- Helper: structure of a chunk that carries a tool-call delta. -/
theorem chunkHasToolCallDelta_inv (chunk : Codex.JVal)
    (h : ProxyApp.chunkHasToolCallDelta chunk = true) :
    ∃ fields cf rest items hd tl,
      chunk = .obj fields ∧
      List.lookup "choices" fields = some (.arr (.obj cf :: rest)) ∧
      List.lookup "delta" cf = some (.obj items) ∧
      List.lookup "tool_calls" items = some (.arr (hd :: tl)) := by
  rcases chunk with _ | b | n | s | xs | fields
  iterate 5 (cases h)
  simp only [ProxyApp.chunkHasToolCallDelta] at h
  rcases hch : List.lookup "choices" fields with _ | cv
  · simp only [hch] at h
    cases h
  · rcases cv with _ | _ | _ | _ | ys | _
    iterate 4 (simp only [hch] at h; cases h)
    · rcases ys with _ | ⟨choice, rest⟩
      · simp only [hch] at h
        cases h
      · rcases choice with _ | _ | _ | _ | _ | cf
        iterate 5 (simp only [hch] at h; cases h)
        simp only [hch] at h
        rcases hdl : List.lookup "delta" cf with _ | dv
        · simp only [hdl] at h
          cases h
        · rcases dv with _ | _ | _ | _ | _ | items
          iterate 5 (simp only [hdl] at h; cases h)
          simp only [hdl] at h
          rcases htl : List.lookup "tool_calls" items with _ | tv
          · simp only [htl] at h
            cases h
          · rcases tv with _ | _ | _ | _ | zs | _
            iterate 4 (simp only [htl] at h; cases h)
            · rcases zs with _ | ⟨hd, tl⟩
              · simp only [htl] at h
                cases h
              · exact ⟨fields, cf, rest, items, hd, tl, rfl, hch, hdl, htl⟩
            · simp only [htl] at h
              cases h
    · simp only [hch] at h
      cases h

/-- Helper: one aggregation step never empties the tool-call map, and a
chunk carrying a tool-call delta makes it non-empty. -/
theorem aggChunkStep_agg (acc : ProxyApp.AggAcc) (chunk : Codex.JVal)
    (acc' : ProxyApp.AggAcc) (h : ProxyApp.aggChunkStep acc chunk = some acc') :
    (acc.agg ≠ [] → acc'.agg ≠ []) ∧
    (ProxyApp.chunkHasToolCallDelta chunk = true → acc'.agg ≠ []) := by
  unfold ProxyApp.aggChunkStep at h
  obtain ⟨b, hM, hN⟩ := bindEqSome h
  unfold ProxyApp.aggUsagePart at hN
  unfold ProxyApp.aggChoicesPart at hM
  have hagg : acc'.agg = b.agg := by
    rcases hu : ProxyApp.pyIn "usage" chunk with _ | bu
    · simp only [hu] at hN
      cases hN
    · rcases bu with _ | _
      · simp only [hu] at hN
        cases hN
        rfl
      · simp only [hu] at hN
        rcases hck : chunk with _ | _ | _ | _ | _ | fields
        iterate 5 (simp only [hck] at hN; cases hN)
        simp only [hck] at hN
        rcases hl : List.lookup "usage" fields with _ | uv
        · simp only [hl] at hN
          cases hN
          rfl
        · simp only [hl] at hN
          by_cases htu : Codex.pyTruthy uv = true
          · rw [if_pos htu] at hN
            cases hN
            rfl
          · rw [if_neg htu] at hN
            cases hN
            rfl
  rcases hc : ProxyApp.pyIn "choices" chunk with _ | bc
  · simp only [hc] at hM
    cases hM
  · rcases bc with _ | _
    · simp only [hc] at hM
      cases hM
      refine ⟨fun hne => hagg ▸ hne, ?_⟩
      intro htc
      exfalso
      obtain ⟨fields, cf, rest, items, hd0, tl0, hchunk, hch, hdl, htl⟩ :=
        chunkHasToolCallDelta_inv _ htc
      subst hchunk
      simp only [ProxyApp.pyIn] at hc
      have hany := lookup_any hch
      rw [hany] at hc
      cases hc
    · simp only [hc] at hM
      rcases hck : chunk with _ | _ | _ | _ | _ | fields
      iterate 5 (simp only [hck] at hM; cases hM)
      simp only [hck] at hM
      rcases hl : List.lookup "choices" fields with _ | cv
      · simp only [hl] at hM
        cases hM
        refine ⟨fun hne => hagg ▸ hne, ?_⟩
        intro htc
        exfalso
        obtain ⟨fields2, cf, rest, items, hd0, tl0, hchunk, hch, hdl, htl⟩ :=
          chunkHasToolCallDelta_inv _ htc
        cases hchunk
        rw [hl] at hch
        cases hch
      · simp only [hl] at hM
        by_cases ht : Codex.pyTruthy cv = true
        · rw [if_pos ht] at hM
          rcases hcv : cv with _ | _ | _ | _ | ys | _
          iterate 4 (simp only [hcv] at hM; cases hM)
          · rcases ys with _ | ⟨choice, rest⟩
            · simp only [hcv] at hM
              cases hM
            · rcases hc2 : choice with _ | _ | _ | _ | _ | cf
              iterate 5 (simp only [hcv, hc2] at hM; cases hM)
              simp only [hcv, hc2] at hM
              rcases hdv : (List.lookup "delta" cf).getD (Codex.JVal.obj []) with
                _ | _ | _ | _ | _ | items
              iterate 5 (simp only [hdv] at hM; cases hM)
              simp only [hdv] at hM
              obtain ⟨acc2, hfold, hfr⟩ := bindEqSome hM
              have hbagg : b.agg = acc2.agg := by
                rcases hfrl : List.lookup "finish_reason" cf with _ | fr
                · simp only [hfrl] at hfr
                  cases hfr
                  rfl
                · simp only [hfrl] at hfr
                  by_cases htf : Codex.pyTruthy fr = true
                  · rw [if_pos htf] at hfr
                    cases hfr
                    rfl
                  · rw [if_neg htf] at hfr
                    cases hfr
                    rfl
              have hfold2 : ((∃ it ∈ items,
                    it.1 = "tool_calls" ∧ ∃ hd tl, it.2 = Codex.JVal.arr (hd :: tl)) ∨
                    acc.agg ≠ []) → acc2.agg ≠ [] := by
                intro seeded
                exact optionFoldlSeed ProxyApp.applyDeltaItem (fun a => a.agg ≠ [])
                  (fun it => it.1 = "tool_calls" ∧ ∃ hd tl, it.2 = Codex.JVal.arr (hd :: tl))
                  (fun a c a2 hst hp => (applyDeltaItem_agg a c a2 hst).1 hp)
                  (fun a c a2 hst hT => by
                    obtain ⟨hk, hd, tl, hv⟩ := hT
                    exact (applyDeltaItem_agg a c a2 hst).2 hd tl hk hv)
                  items acc acc2 hfold seeded
              rw [hagg, hbagg]
              refine ⟨fun hne => hfold2 (Or.inr hne), ?_⟩
              intro htc
              obtain ⟨fields2, cf2, rest2, items2, hd0, tl0, hchunk, hch, hdl2, htl⟩ :=
                chunkHasToolCallDelta_inv _ htc
              cases hchunk
              rw [hl] at hch
              rw [hcv, hc2] at hch
              injection hch with hch1
              injection hch1 with hch2
              injection hch2 with hch3 hch4
              injection hch3 with hch5
              subst hch5
              rw [hdl2] at hdv
              simp only [Option.getD_some] at hdv
              injection hdv with hitems
              subst hitems
              exact hfold2 (Or.inl ⟨("tool_calls", Codex.JVal.arr (hd0 :: tl0)),
                lookup_mem htl, rfl, hd0, tl0, rfl⟩)
          · simp only [hcv] at hM
            cases hM
        · rw [if_neg ht] at hM
          cases hM
          refine ⟨fun hne => hagg ▸ hne, ?_⟩
          intro htc
          exfalso
          obtain ⟨fields2, cf, rest, items, hd0, tl0, hchunk, hch, hdl, htl⟩ :=
            chunkHasToolCallDelta_inv _ htc
          cases hchunk
          rw [hl] at hch
          injection hch with hcv2
          exact ht (by rw [hcv2]; simp [Codex.pyTruthy])

/-- C4: for every chunk sequence in which at least one tool-call delta was
emitted, the terminal `finish_reason` of the reassembled response is
`tool_calls`, overriding whatever terminal reason the chunks carried —
both in the provider-side reassembler (`_stream_to_completion_response`)
and in the proxy-side aggregator (`_aggregate_streaming_chunks`). -/
theorem c4_tool_calls_override
    (chunks : List Codex.Chunk) (jchunks : List Codex.JVal)
    (res : ProxyApp.AggregateResult)
    (h1 : ∃ ck ∈ chunks, ∃ tc, ck.delta = Codex.Delta.toolCalls tc)
    (h2 : ProxyApp.aggregate_streaming_chunks jchunks = some res)
    (h3 : ∃ c ∈ jchunks, ProxyApp.chunkHasToolCallDelta c = true) :
    (∃ fr, Codex.stream_to_completion_response chunks = some fr ∧
      fr.finish_reason = "tool_calls") ∧
    res.finish_reason = some (Codex.JVal.str "tool_calls") := by
  constructor
  · obtain ⟨ck, hmem, tc, htc⟩ := h1
    rcases chunks with _ | ⟨first, rest⟩
    · simp at hmem
    · have hne : (List.foldl Codex.reassemblyStep
          { content := none, agg := [], chunk_finish_reason := none } (first :: rest)).agg
          ≠ [] :=
        foldl_reassembly_agg (first :: rest) _ (Or.inl ⟨ck, hmem, tc, htc⟩)
      have hif : (List.foldl Codex.reassemblyStep
          { content := none, agg := [], chunk_finish_reason := none }
          (first :: rest)).agg.isEmpty = false := by
        cases hfa : (List.foldl Codex.reassemblyStep
            { content := none, agg := [], chunk_finish_reason := none }
            (first :: rest)).agg with
        | nil => exact absurd hfa hne
        | cons x xs => rfl
      simp only [Codex.stream_to_completion_response, hif, Bool.not_false, reduceIte]
      exact ⟨_, rfl, rfl⟩
  · obtain ⟨c, hcmem, hcd⟩ := h3
    rcases jchunks with _ | ⟨first, rest⟩
    · cases h2
    · simp only [ProxyApp.aggregate_streaming_chunks] at h2
      obtain ⟨accF, hfold, hrest⟩ := bindEqSome h2
      have haggne : accF.agg ≠ [] :=
        optionFoldlSeed ProxyApp.aggChunkStep (fun a => a.agg ≠ [])
          (fun c => ProxyApp.chunkHasToolCallDelta c = true)
          (fun a c a2 hst hp => (aggChunkStep_agg a c a2 hst).1 hp)
          (fun a c a2 hst hT => (aggChunkStep_agg a c a2 hst).2 hT)
          (first :: rest) _ accF hfold (Or.inl ⟨c, hcmem, hcd⟩)
      have hif : accF.agg.isEmpty = false := by
        cases hfa : accF.agg with
        | nil => exact absurd hfa haggne
        | cons x xs => rfl
      simp only [hif, Bool.not_false, reduceIte] at hrest
      rcases hf : first with _ | _ | _ | _ | _ | ff
      iterate 5 (simp only [hf] at hrest; cases hrest)
      simp only [hf] at hrest
      cases hrest
      rfl

/-- Witness for C4 at a concrete tool-call chunk sequence whose terminal
chunk says `stop`. -/
theorem c4_tool_calls_override_witness :
    (∃ fr, Codex.stream_to_completion_response Fixtures.c4chunks = some fr ∧
      fr.finish_reason = "tool_calls") ∧
    Fixtures.c4res.finish_reason = some (Codex.JVal.str "tool_calls") :=
  c4_tool_calls_override Fixtures.c4chunks Fixtures.c4jchunks Fixtures.c4res
    ⟨{ id := "chatcmpl-1", created := 0, model := "m",
       delta := Codex.Delta.toolCalls
         { index := 0, id := "call_1", name := "get", arguments := "" },
       finish_reason := none, usage := none },
      List.mem_cons_self _ _,
      { index := 0, id := "call_1", name := "get", arguments := "" }, rfl⟩
    (by rfl)
    ⟨Codex.JVal.obj [("id", .str "c1"),
      ("choices", .arr [ .obj [
        ("delta", .obj [("tool_calls", .arr [ .obj [
            ("index", .num 0), ("id", .str "call_1"),
            ("function", .obj [("name", .str "get"), ("arguments", .str "")])]])]),
        ("finish_reason", .str "stop")]])],
      List.mem_cons_self _ _, rfl⟩

/-- Helper: the metadata capture never touches the tool-index map. -/
theorem capture_created_at_tool_index (st : Codex.TranslatorState) (r : Codex.JObj) :
    (Codex.capture_created_at st r).tool_index_by_call_id = st.tool_index_by_call_id := by
  unfold Codex.capture_created_at
  split <;> rfl

/-- Helper: the response-id capture never touches the tool-index map. -/
theorem capture_response_meta_tool_index (st : Codex.TranslatorState) (event : Codex.JObj) :
    (Codex.capture_response_meta st event).tool_index_by_call_id
      = st.tool_index_by_call_id := by
  unfold Codex.capture_response_meta
  split
  · rw [capture_created_at_tool_index]
    split
    · split <;> rfl
    · rfl
  · rfl

/-- Helper: building a chunk never touches the tool-index map. -/
theorem build_chunk_fst_tool_index (st : Codex.TranslatorState) (d : Codex.Delta)
    (f : Option String) (u : Option Codex.Usage) :
    ((Codex.build_chunk st d f u).1).tool_index_by_call_id = st.tool_index_by_call_id := by
  unfold Codex.build_chunk
  split <;> rfl

/-- Helper: the built chunk carries the requested delta. -/
theorem build_chunk_snd_delta (st : Codex.TranslatorState) (d : Codex.Delta)
    (f : Option String) (u : Option Codex.Usage) :
    ((Codex.build_chunk st d f u).2).delta = d := rfl

/-- Helper: a lookup hit is stable under appending entries. -/
theorem lookup_append_some {α : Type} {m : List (String × α)} {k : String} {v : α}
    (ext : List (String × α)) (h : List.lookup k m = some v) :
    List.lookup k (m ++ ext) = some v := by
  induction m with
  | nil => cases h
  | cons hd tl ih =>
    obtain ⟨k1, v1⟩ := hd
    by_cases hk : k = k1
    · subst hk
      simp only [List.lookup, beq_self_eq_true] at h ⊢
      exact h
    · have hbeq : (k == k1) = false := beq_false_of_ne hk
      simp only [List.cons_append, List.lookup, hbeq] at h ⊢
      exact ih h

/-- Helper: a missed lookup means the key is absent. -/
theorem lookup_none_not_mem {α : Type} {m : List (String × α)} {k : String}
    (h : List.lookup k m = none) : k ∉ m.map Prod.fst := by
  induction m with
  | nil => simp
  | cons hd tl ih =>
    obtain ⟨k1, v1⟩ := hd
    by_cases hk : k = k1
    · subst hk
      simp only [List.lookup, beq_self_eq_true] at h
      cases h
    · have hbeq : (k == k1) = false := beq_false_of_ne hk
      simp only [List.lookup, hbeq] at h
      simp only [List.map_cons, List.mem_cons]
      rintro (h1 | h2)
      · exact hk h1
      · exact ih h h2

/-- Helper: `_get_or_create_tool_index` extends the map by appending, keeps
the invariant, records the looked-up id at the returned index, and leaves
the name map alone. -/
theorem get_or_create_spec (st : Codex.TranslatorState) (cid : String)
    (st2 : Codex.TranslatorState) (idx : Nat)
    (hgoc : Codex.get_or_create_tool_index st cid = (st2, idx)) :
    (∃ ext, st2.tool_index_by_call_id = st.tool_index_by_call_id ++ ext) ∧
    List.lookup cid st2.tool_index_by_call_id = some idx ∧
    (Codex.toolIndexInv st → Codex.toolIndexInv st2) ∧
    st2.tool_names_by_call_id = st.tool_names_by_call_id := by
  unfold Codex.get_or_create_tool_index at hgoc
  rcases hl : List.lookup cid st.tool_index_by_call_id with _ | i
  · simp only [hl] at hgoc
    cases hgoc
    refine ⟨⟨[(cid, st.tool_index_by_call_id.length)], rfl⟩, ?_, ?_, rfl⟩
    · rcases hl2 : List.lookup cid (st.tool_index_by_call_id ++
          [(cid, st.tool_index_by_call_id.length)]) with _ | j
      · exfalso
        have := lookup_none_not_mem hl2
        simp at this
      · have hmem := lookup_mem hl2
        rcases List.mem_append.mp hmem with hin | hin
        · exfalso
          exact lookup_none_not_mem hl (List.mem_map.mpr ⟨_, hin, rfl⟩)
        · simp at hin
          exact congrArg some hin
    · rintro ⟨hrange, hnodup⟩
      constructor
      · simp only [List.map_append, List.length_append, List.map_cons, List.map_nil,
          List.length_cons, List.length_nil, hrange]
        rw [List.range_succ]
      · simp only [List.map_append, List.map_cons, List.map_nil]
        rw [List.nodup_append]
        exact ⟨hnodup, List.nodup_singleton _, by
          intro a ha hb
          simp at hb
          subst hb
          exact lookup_none_not_mem hl ha⟩
  · simp only [hl] at hgoc
    cases hgoc
    exact ⟨⟨[], by simp⟩, hl, fun hi => hi, rfl⟩

/-- Helper: the invariant only depends on the tool-index map. -/
theorem toolIndexInv_of_eq {s1 s2 : Codex.TranslatorState}
    (he : s1.tool_index_by_call_id = s2.tool_index_by_call_id) :
    Codex.toolIndexInv s2 → Codex.toolIndexInv s1 := by
  intro h2
  unfold Codex.toolIndexInv at h2 ⊢
  rw [he]
  exact h2

/-- Helper: the `process_event` step goals for a result that leaves the
tool-index map unchanged and emits no chunk. -/
theorem pe_spec_unchanged {st : Codex.TranslatorState} (r : Codex.PEResult)
    (hst : r.state.tool_index_by_call_id = st.tool_index_by_call_id)
    (hcs : r.chunks = []) :
    (∃ ext, r.state.tool_index_by_call_id = st.tool_index_by_call_id ++ ext) ∧
    (Codex.toolIndexInv st → Codex.toolIndexInv r.state) ∧
    (∀ c ∈ r.chunks, ∀ tc, c.delta = Codex.Delta.toolCalls tc →
      List.lookup tc.id r.state.tool_index_by_call_id = some tc.index) := by
  refine ⟨⟨[], by simp [hst]⟩, toolIndexInv_of_eq hst, ?_⟩
  intro c hc
  rw [hcs] at hc
  cases hc

/-- Helper: spec of the `response.output_item.added` tool branch. -/
theorem added_tool_event_spec (st : Codex.TranslatorState) (item : Codex.JObj)
    (cid : String) :
    (∃ ext, (Codex.added_tool_event st item cid).1.tool_index_by_call_id
        = st.tool_index_by_call_id ++ ext) ∧
    (Codex.toolIndexInv st → Codex.toolIndexInv (Codex.added_tool_event st item cid).1) ∧
    ∃ tc, (Codex.added_tool_event st item cid).2.delta = Codex.Delta.toolCalls tc ∧
      List.lookup tc.id (Codex.added_tool_event st item cid).1.tool_index_by_call_id
        = some tc.index := by
  unfold Codex.added_tool_event
  rcases hgoc : Codex.get_or_create_tool_index st cid with ⟨st2, idx⟩
  obtain ⟨⟨ext, hext⟩, hlook, hinv, _⟩ := get_or_create_spec st cid st2 idx hgoc
  simp only [hgoc]
  unfold Codex.toolIndexInv
  rw [build_chunk_snd_delta]
  rw [build_chunk_fst_tool_index]
  split
  · exact ⟨⟨ext, hext⟩, fun hi => hinv hi, ⟨_, rfl, hlook⟩⟩
  · exact ⟨⟨ext, hext⟩, fun hi => hinv hi, ⟨_, rfl, hlook⟩⟩

/-- Helper: spec of the `response.function_call_arguments.delta` branch. -/
theorem args_delta_event_spec (st : Codex.TranslatorState) (cid d : String) :
    (∃ ext, (Codex.args_delta_event st cid d).1.tool_index_by_call_id
        = st.tool_index_by_call_id ++ ext) ∧
    (Codex.toolIndexInv st → Codex.toolIndexInv (Codex.args_delta_event st cid d).1) ∧
    ∃ tc, (Codex.args_delta_event st cid d).2.delta = Codex.Delta.toolCalls tc ∧
      List.lookup tc.id (Codex.args_delta_event st cid d).1.tool_index_by_call_id
        = some tc.index := by
  unfold Codex.args_delta_event
  rcases hgoc : Codex.get_or_create_tool_index st cid with ⟨st2, idx⟩
  obtain ⟨⟨ext, hext⟩, hlook, hinv, _⟩ := get_or_create_spec st cid st2 idx hgoc
  simp only [hgoc]
  unfold Codex.toolIndexInv
  rw [build_chunk_snd_delta]
  rw [build_chunk_fst_tool_index]
  exact ⟨⟨ext, hext⟩, fun hi => hinv hi, ⟨_, rfl, hlook⟩⟩

/-- Helper: spec of the `response.function_call_arguments.done` branch. -/
theorem args_done_event_spec (st : Codex.TranslatorState) (event : Codex.JObj)
    (cid : String) :
    (∃ ext, (Codex.args_done_event st event cid).1.tool_index_by_call_id
        = st.tool_index_by_call_id ++ ext) ∧
    (Codex.toolIndexInv st → Codex.toolIndexInv (Codex.args_done_event st event cid).1) ∧
    ∃ tc, (Codex.args_done_event st event cid).2.delta = Codex.Delta.toolCalls tc ∧
      List.lookup tc.id (Codex.args_done_event st event cid).1.tool_index_by_call_id
        = some tc.index := by
  unfold Codex.args_done_event
  rcases hgoc : Codex.get_or_create_tool_index st cid with ⟨st2, idx⟩
  obtain ⟨⟨ext, hext⟩, hlook, hinv, _⟩ := get_or_create_spec st cid st2 idx hgoc
  simp only [hgoc]
  unfold Codex.toolIndexInv
  rw [build_chunk_snd_delta]
  rw [build_chunk_fst_tool_index]
  exact ⟨⟨ext, hext⟩, fun hi => hinv hi, ⟨_, rfl, hlook⟩⟩

/-- Helper: applied form of `added_tool_event_spec`. -/
theorem added_tool_event_applied (st : Codex.TranslatorState) (item : Codex.JObj)
    (cid : String) (stF : Codex.TranslatorState) (ck : Codex.Chunk)
    (he : Codex.added_tool_event st item cid = (stF, ck)) :
    (∃ ext, stF.tool_index_by_call_id = st.tool_index_by_call_id ++ ext) ∧
    (Codex.toolIndexInv st → Codex.toolIndexInv stF) ∧
    ∃ tc, ck.delta = Codex.Delta.toolCalls tc ∧
      List.lookup tc.id stF.tool_index_by_call_id = some tc.index := by
  have h1 : (Codex.added_tool_event st item cid).1 = stF := by rw [he]
  have h2 : (Codex.added_tool_event st item cid).2 = ck := by rw [he]
  obtain ⟨ha, hb, tc, hc, hd⟩ := added_tool_event_spec st item cid
  rw [h1] at ha hb hd
  rw [h2] at hc
  exact ⟨ha, hb, tc, hc, hd⟩

/-- Helper: applied form of `args_delta_event_spec`. -/
theorem args_delta_event_applied (st : Codex.TranslatorState) (cid d : String)
    (stF : Codex.TranslatorState) (ck : Codex.Chunk)
    (he : Codex.args_delta_event st cid d = (stF, ck)) :
    (∃ ext, stF.tool_index_by_call_id = st.tool_index_by_call_id ++ ext) ∧
    (Codex.toolIndexInv st → Codex.toolIndexInv stF) ∧
    ∃ tc, ck.delta = Codex.Delta.toolCalls tc ∧
      List.lookup tc.id stF.tool_index_by_call_id = some tc.index := by
  have h1 : (Codex.args_delta_event st cid d).1 = stF := by rw [he]
  have h2 : (Codex.args_delta_event st cid d).2 = ck := by rw [he]
  obtain ⟨ha, hb, tc, hc, hd⟩ := args_delta_event_spec st cid d
  rw [h1] at ha hb hd
  rw [h2] at hc
  exact ⟨ha, hb, tc, hc, hd⟩

/-- Helper: applied form of `args_done_event_spec`. -/
theorem args_done_event_applied (st : Codex.TranslatorState) (event : Codex.JObj)
    (cid : String) (stF : Codex.TranslatorState) (ck : Codex.Chunk)
    (he : Codex.args_done_event st event cid = (stF, ck)) :
    (∃ ext, stF.tool_index_by_call_id = st.tool_index_by_call_id ++ ext) ∧
    (Codex.toolIndexInv st → Codex.toolIndexInv stF) ∧
    ∃ tc, ck.delta = Codex.Delta.toolCalls tc ∧
      List.lookup tc.id stF.tool_index_by_call_id = some tc.index := by
  have h1 : (Codex.args_done_event st event cid).1 = stF := by rw [he]
  have h2 : (Codex.args_done_event st event cid).2 = ck := by rw [he]
  obtain ⟨ha, hb, tc, hc, hd⟩ := args_done_event_spec st event cid
  rw [h1] at ha hb hd
  rw [h2] at hc
  exact ⟨ha, hb, tc, hc, hd⟩

/-- Helper: the terminal tail of `process_event` leaves the tool-index map
unchanged and never emits a tool-call delta. -/
theorem processTerminal_spec (st : Codex.TranslatorState) (event : Codex.JObj)
    (et : String) (r : Codex.PEResult)
    (h : Codex.process_event.processTerminal st event et = some r) :
    r.state.tool_index_by_call_id = st.tool_index_by_call_id ∧
    (∀ c ∈ r.chunks, ∀ tc, c.delta = Codex.Delta.toolCalls tc → False) := by
  unfold Codex.process_event.processTerminal at h
  by_cases h1 : et = "error" ∨ et = "response.failed"
  · rw [if_pos h1] at h
    cases h
    refine ⟨rfl, ?_⟩
    intro c hc
    cases hc
  · rw [if_neg h1] at h
    by_cases h2 : et = "response.completed" ∨ et = "response.incomplete"
    · rw [if_pos h2] at h
      rcases hu : Codex.extract_usage event with _ | usage
      · simp only [hu] at h
        cases h
      · simp only [hu] at h
        cases h
        constructor
        · simp only [Codex.PEResult.state]
          rw [build_chunk_fst_tool_index]
        · intro c hc tc htc
          simp only [Codex.PEResult.chunks, List.mem_singleton] at hc
          subst hc
          rw [build_chunk_snd_delta] at htc
          cases htc
    · rw [if_neg h2] at h
      cases h
      refine ⟨rfl, ?_⟩
      intro c hc
      cases hc

/-- Helper: one `process_event` step only appends to the tool-index map,
preserves the first-appearance invariant, and every tool-call chunk it
emits carries the index recorded for its `call_id` in the post-state. -/
theorem process_event_spec (st : Codex.TranslatorState) (event : Codex.JObj)
    (r : Codex.PEResult) (h : Codex.process_event st event = some r) :
    (∃ ext, r.state.tool_index_by_call_id = st.tool_index_by_call_id ++ ext) ∧
    (Codex.toolIndexInv st → Codex.toolIndexInv r.state) ∧
    (∀ c ∈ r.chunks, ∀ tc, c.delta = Codex.Delta.toolCalls tc →
      List.lookup tc.id r.state.tool_index_by_call_id = some tc.index) := by
  unfold Codex.process_event at h
  rcases hty : List.lookup "type" event with _ | tv
  · simp only [hty] at h
    cases h
    exact pe_spec_unchanged _ rfl rfl
  · rcases tv with _ | _ | _ | et | _ | _
    · simp only [hty] at h
      cases h
      exact pe_spec_unchanged _ rfl rfl
    · simp only [hty] at h
      cases h
      exact pe_spec_unchanged _ rfl rfl
    · simp only [hty] at h
      cases h
      exact pe_spec_unchanged _ rfl rfl
    · -- the string event-type branch
      simp only [hty] at h
      set stA := Codex.capture_response_meta st event with hstA
      have hA : stA.tool_index_by_call_id = st.tool_index_by_call_id := by
        rw [hstA]
        exact capture_response_meta_tool_index st event
      by_cases h1 : et = "response.output_item.added"
      · rw [if_pos h1] at h
        rcases hit : List.lookup "item" event with _ | iv
        · simp only [hit] at h
          cases h
          exact pe_spec_unchanged _ hA rfl
        · rcases iv with _ | _ | _ | _ | _ | item
          iterate 5 (simp only [hit] at h; cases h; exact pe_spec_unchanged _ hA rfl)
          simp only [hit] at h
          by_cases hfc : Codex.isFunctionCallItem item = true
          · rw [if_pos hfc] at h
            rcases hcid : Codex.extract_tool_call_id item with _ | call_id
            · simp only [hcid] at h
              cases h
              exact pe_spec_unchanged _ hA rfl
            · simp only [hcid] at h
              cases h
              obtain ⟨⟨ext, hext⟩, hinv, tc0, hdel, hlook⟩ :=
                added_tool_event_spec stA item call_id
              refine ⟨⟨ext, ?_⟩, ?_, ?_⟩
              · simp only [Codex.PEResult.state]
                rw [hext, hA]
              · intro hi
                exact hinv (toolIndexInv_of_eq hA hi)
              · intro c hc tc htc
                simp only [Codex.PEResult.chunks, List.mem_singleton] at hc
                subst hc
                rw [hdel] at htc
                cases htc
                exact hlook
          · rw [if_neg hfc] at h
            cases h
            exact pe_spec_unchanged _ hA rfl
      · rw [if_neg h1] at h
        by_cases h2 : et = "response.function_call_arguments.delta"
        · rw [if_pos h2] at h
          rcases hcid : Codex.extract_tool_call_id event with _ | call_id
          · simp only [hcid] at h
            cases h
            exact pe_spec_unchanged _ hA rfl
          · simp only [hcid] at h
            rcases hdl : List.lookup "delta" event with _ | dv
            · simp only [hdl] at h
              cases h
              exact pe_spec_unchanged _ hA rfl
            · rcases dv with _ | _ | _ | d | _ | _
              · simp only [hdl] at h
                cases h
                exact pe_spec_unchanged _ hA rfl
              · simp only [hdl] at h
                cases h
                exact pe_spec_unchanged _ hA rfl
              · simp only [hdl] at h
                cases h
                exact pe_spec_unchanged _ hA rfl
              · simp only [hdl] at h
                cases h
                obtain ⟨⟨ext, hext⟩, hinv, tc0, hdel, hlook⟩ :=
                  args_delta_event_spec stA call_id d
                refine ⟨⟨ext, ?_⟩, ?_, ?_⟩
                · simp only [Codex.PEResult.state]
                  rw [hext, hA]
                · intro hi
                  exact hinv (toolIndexInv_of_eq hA hi)
                · intro c hc tc htc
                  simp only [Codex.PEResult.chunks, List.mem_singleton] at hc
                  subst hc
                  rw [hdel] at htc
                  cases htc
                  exact hlook
              · simp only [hdl] at h
                cases h
                exact pe_spec_unchanged _ hA rfl
              · simp only [hdl] at h
                cases h
                exact pe_spec_unchanged _ hA rfl
        · rw [if_neg h2] at h
          by_cases h3 : et = "response.function_call_arguments.done"
          · rw [if_pos h3] at h
            rcases hcid : Codex.extract_tool_call_id event with _ | call_id
            · simp only [hcid] at h
              cases h
              exact pe_spec_unchanged _ hA rfl
            · simp only [hcid] at h
              cases h
              obtain ⟨⟨ext, hext⟩, hinv, tc0, hdel, hlook⟩ :=
                args_done_event_spec stA event call_id
              refine ⟨⟨ext, ?_⟩, ?_, ?_⟩
              · simp only [Codex.PEResult.state]
                rw [hext, hA]
              · intro hi
                exact hinv (toolIndexInv_of_eq hA hi)
              · intro c hc tc htc
                simp only [Codex.PEResult.chunks, List.mem_singleton] at hc
                subst hc
                rw [hdel] at htc
                cases htc
                exact hlook
          · rw [if_neg h3] at h
            rcases htd : Codex.extract_text_delta event with _ | text
            · simp only [htd] at h
              obtain ⟨hstate, hno⟩ := processTerminal_spec stA event et r h
              refine ⟨⟨[], by rw [hstate, hA, List.append_nil]⟩, ?_, ?_⟩
              · intro hi
                exact toolIndexInv_of_eq (hstate.trans hA) hi
              · intro c hc tc htc
                exact absurd (hno c hc tc htc) not_false
            · simp only [htd] at h
              by_cases h4 : text ≠ ""
              · rw [if_pos h4] at h
                cases h
                refine ⟨⟨[], ?_⟩, ?_, ?_⟩
                · simp only [Codex.PEResult.state]
                  rw [build_chunk_fst_tool_index, hA, List.append_nil]
                · intro hi
                  have hbc : ((Codex.build_chunk stA (Codex.Delta.content text) none
                      none).1).tool_index_by_call_id = st.tool_index_by_call_id := by
                    rw [build_chunk_fst_tool_index, hA]
                  exact toolIndexInv_of_eq hbc hi
                · intro c hc tc htc
                  simp only [Codex.PEResult.chunks, List.mem_singleton] at hc
                  subst hc
                  rw [build_chunk_snd_delta] at htc
                  cases htc
              · rw [if_neg h4] at h
                obtain ⟨hstate, hno⟩ := processTerminal_spec stA event et r h
                refine ⟨⟨[], by rw [hstate, hA, List.append_nil]⟩, ?_, ?_⟩
                · intro hi
                  exact toolIndexInv_of_eq (hstate.trans hA) hi
                · intro c hc tc htc
                  exact absurd (hno c hc tc htc) not_false
    · simp only [hty] at h
      cases h
      exact pe_spec_unchanged _ rfl rfl
    · simp only [hty] at h
      cases h
      exact pe_spec_unchanged _ rfl rfl

/-- Helper: over a whole event sequence, the tool-index map only grows by
appending, the first-appearance invariant is preserved, and every emitted
tool-call chunk carries the index recorded for its `call_id` in the final
state. -/
theorem process_events_spec :
    ∀ (events : List Codex.JObj) (st : Codex.TranslatorState) (fin : Codex.StreamEnd)
      (chunks : List Codex.Chunk),
      Codex.process_events st events = some (fin, chunks) →
      (∃ ext, fin.state.tool_index_by_call_id = st.tool_index_by_call_id ++ ext) ∧
      (Codex.toolIndexInv st → Codex.toolIndexInv fin.state) ∧
      (∀ c ∈ chunks, ∀ tc, c.delta = Codex.Delta.toolCalls tc →
        List.lookup tc.id fin.state.tool_index_by_call_id = some tc.index) := by
  intro events
  induction events with
  | nil =>
    intro st fin chunks h
    cases h
    refine ⟨⟨[], by simp [Codex.StreamEnd.state]⟩, fun hi => hi, ?_⟩
    intro c hc
    cases hc
  | cons e es ih =>
    intro st fin chunks h
    unfold Codex.process_events at h
    rcases hpe : Codex.process_event st e with _ | pr
    · simp only [hpe] at h
      cases h
    · simp only [hpe] at h
      rcases pr with ⟨st1, cs⟩ | ⟨st1, err⟩
      · rcases hrec : Codex.process_events st1 es with _ | ⟨fin2, cs2⟩
        · simp only [hrec] at h
          cases h
        · simp only [hrec] at h
          cases h
          obtain ⟨⟨e1, he1⟩, hi1, hc1⟩ := process_event_spec st e _ hpe
          have he1' : st1.tool_index_by_call_id = st.tool_index_by_call_id ++ e1 := he1
          have hi1' : Codex.toolIndexInv st → Codex.toolIndexInv st1 := hi1
          have hc1' : ∀ c ∈ cs, ∀ tc, c.delta = Codex.Delta.toolCalls tc →
              List.lookup tc.id st1.tool_index_by_call_id = some tc.index := hc1
          obtain ⟨⟨e2, he2⟩, hi2, hc2⟩ := ih st1 _ _ hrec
          refine ⟨⟨e1 ++ e2, ?_⟩, ?_, ?_⟩
          · rw [he2, he1', List.append_assoc]
          · intro hi
            exact hi2 (hi1' hi)
          · intro c hc tc htc
            rcases List.mem_append.mp hc with hcl | hcr
            · rw [he2]
              exact lookup_append_some e2 (hc1' c hcl tc htc)
            · exact hc2 c hcr tc htc
      · cases h
        obtain ⟨⟨e1, he1⟩, hi1, _⟩ := process_event_spec st e _ hpe
        refine ⟨⟨e1, he1⟩, fun hi => hi1 hi, ?_⟩
        intro c hc
        cases hc

/-- C10: for every event sequence processed by one translator instance,
tool-call indices are assigned by first appearance — the final index map
records indices `0, 1, 2, …` over distinct `call_id`s in observation
order, every emitted tool-call chunk carries the index the final map
records for its `call_id`, and hence two chunks for the same `call_id`
always carry the same index. -/
theorem c10_tool_index_first_appearance
    (model_id : String) (created : Int) (fallbackId : String)
    (events : List Codex.JObj) (fin : Codex.StreamEnd) (chunks : List Codex.Chunk)
    (h : Codex.process_events (Codex.initTranslator model_id created fallbackId) events
        = some (fin, chunks)) :
    (fin.state.tool_index_by_call_id.map Prod.snd
        = List.range fin.state.tool_index_by_call_id.length ∧
      (fin.state.tool_index_by_call_id.map Prod.fst).Nodup) ∧
    (∀ c ∈ chunks, ∀ tc, c.delta = Codex.Delta.toolCalls tc →
      List.lookup tc.id fin.state.tool_index_by_call_id = some tc.index) ∧
    (∀ c1 ∈ chunks, ∀ c2 ∈ chunks, ∀ tc1 tc2,
      c1.delta = Codex.Delta.toolCalls tc1 → c2.delta = Codex.Delta.toolCalls tc2 →
      tc1.id = tc2.id → tc1.index = tc2.index) := by
  obtain ⟨hext, hinv, hlook⟩ := process_events_spec events _ fin chunks h
  have hinv0 : Codex.toolIndexInv (Codex.initTranslator model_id created fallbackId) :=
    ⟨rfl, List.nodup_nil⟩
  have hfin := hinv hinv0
  refine ⟨hfin, hlook, ?_⟩
  intro c1 h1 c2 h2 tc1 tc2 hd1 hd2 hid
  have l1 := hlook c1 h1 tc1 hd1
  have l2 := hlook c2 h2 tc2 hd2
  rw [hid] at l1
  rw [l2] at l1
  exact (Option.some.injEq _ _).mp l1.symm

/-- Witness for C10 at a concrete two-tool-call event sequence. -/
theorem c10_tool_index_first_appearance_witness :
    (Fixtures.c10fin.state.tool_index_by_call_id.map Prod.snd
        = List.range Fixtures.c10fin.state.tool_index_by_call_id.length ∧
      (Fixtures.c10fin.state.tool_index_by_call_id.map Prod.fst).Nodup) ∧
    (∀ c ∈ Fixtures.c10chunks, ∀ tc, c.delta = Codex.Delta.toolCalls tc →
      List.lookup tc.id Fixtures.c10fin.state.tool_index_by_call_id = some tc.index) ∧
    (∀ c1 ∈ Fixtures.c10chunks, ∀ c2 ∈ Fixtures.c10chunks, ∀ tc1 tc2,
      c1.delta = Codex.Delta.toolCalls tc1 → c2.delta = Codex.Delta.toolCalls tc2 →
      tc1.id = tc2.id → tc1.index = tc2.index) :=
  c10_tool_index_first_appearance "m" 0 "fb" Fixtures.c10events Fixtures.c10fin
    Fixtures.c10chunks (by decide)
